import Mathlib

/-!
Shallow embedding of the Bumddb backup-metadata catalog (`bumddb.py` and
`integrate.py`).

Modelling conventions:
* every SQLite table is a Lean list of rows; a dictionary-style table is a
  list of `(id, value)` pairs;
* the id handed out by `INTEGER PRIMARY KEY AUTOINCREMENT` is one plus the
  largest id already in the table;
* a value that can be SQL `NULL` is an `Option`, compared with `sqlEqO`,
  which follows SQL three-valued logic restricted to `WHERE`: a comparison
  involving `NULL` never holds;
* python generators are modelled as the list of the rows they yield, and a
  python exception as `Except.error`.
-/

/-- SQL equality on possibly-NULL values: a comparison with NULL is never true. -/
def sqlEqO {α : Type} [BEq α] : Option α → Option α → Bool
  | some a, some b => a == b
  | _, _ => false

/-- A table whose rows are an autoincrement id paired with a key value. -/
abbrev Tbl (α : Type) := List (Nat × α)

/-- The `SELECT`/`fetchone` half of `Table.getId`: the id of the first row whose
key matches, if any. -/
def tblFind {α : Type} (eq : α → α → Bool) (rows : Tbl α) (v : α) : Option Nat :=
  (rows.find? (fun r => eq r.2 v)).map (fun r => r.1)

/-- The id AUTOINCREMENT will assign to the next row inserted into `rows`. -/
def freshId {α : Type} (rows : Tbl α) : Nat :=
  (rows.foldr (fun r m => Nat.max r.1 m) 0) + 1

/-- `Table.getId` from `bumddb.py`: return the id of a matching row; on a miss,
insert a fresh row unless the table is read-only, in which case return `none`
(python `None`). -/
def tblGetId {α : Type} (eq : α → α → Bool) (ro : Bool) (rows : Tbl α) (v : α) :
    Option Nat × Tbl α :=
  match tblFind eq rows v with
  | some i => (some i, rows)
  | none =>
    if ro then (none, rows)
    else (some (freshId rows), rows ++ [(freshId rows, v)])

/-- String equality as used by SQL `=` on TEXT columns (case-sensitive). -/
def strEq (a b : String) : Bool := a == b

/-- A row of `run_v1`: id, host_id, starttime, endtime, status_id.  The last
two are NULL right after insertion. -/
structure RunRow where
  id : Nat
  hostId : Option Nat
  starttime : Int
  endtime : Option Int
  statusId : Option Nat
  deriving DecidableEq

/-- Key columns of a `directory_v1` row (everything but the id). -/
structure DirKey where
  runId : Option Nat
  pathId : Option Nat
  fileowner : Int
  filegroup : Int
  filemode : Int
  filetime : Int
  deriving DecidableEq

/-- Key columns of a `link_v1` row. -/
structure LinkKey where
  runId : Option Nat
  pathId : Option Nat
  destId : Option Nat
  deriving DecidableEq

/-- Key columns of a `file_v1` row. -/
structure FileKey where
  runId : Option Nat
  pathId : Option Nat
  fileowner : Int
  filegroup : Int
  filemode : Int
  filesize : Int
  filetime : Int
  shaId : Option Nat
  deriving DecidableEq

/-- SQL equality on the `directory_v1` uniqueness tuple. -/
def dirKeyEq (a b : DirKey) : Bool :=
  sqlEqO a.runId b.runId && sqlEqO a.pathId b.pathId && a.fileowner == b.fileowner &&
    a.filegroup == b.filegroup && a.filemode == b.filemode && a.filetime == b.filetime

/-- SQL equality on the `link_v1` uniqueness tuple. -/
def linkKeyEq (a b : LinkKey) : Bool :=
  sqlEqO a.runId b.runId && sqlEqO a.pathId b.pathId && sqlEqO a.destId b.destId

/-- SQL equality on the `file_v1` uniqueness tuple. -/
def fileKeyEq (a b : FileKey) : Bool :=
  sqlEqO a.runId b.runId && sqlEqO a.pathId b.pathId && a.fileowner == b.fileowner &&
    a.filegroup == b.filegroup && a.filemode == b.filemode && a.filesize == b.filesize &&
    a.filetime == b.filetime && sqlEqO a.shaId b.shaId

/-- The whole catalog: the four string dictionaries, the run ledger, and the
three observation tables. -/
structure DB where
  status : Tbl String
  host : Tbl String
  filesha : Tbl String
  filepath : Tbl String
  run : List RunRow
  directory : Tbl DirKey
  link : Tbl LinkKey
  file : Tbl FileKey
  deriving DecidableEq

/-- `StatusTable.getId`. -/
def statusTable_getId (ro : Bool) (s : DB) (v : String) : Option Nat × DB :=
  let r := tblGetId strEq ro s.status v
  (r.1, { s with status := r.2 })

/-- `HostTable.getId`. -/
def hostTable_getId (ro : Bool) (s : DB) (v : String) : Option Nat × DB :=
  let r := tblGetId strEq ro s.host v
  (r.1, { s with host := r.2 })

/-- `FileshaTable.getId`. -/
def fileshaTable_getId (ro : Bool) (s : DB) (v : String) : Option Nat × DB :=
  let r := tblGetId strEq ro s.filesha v
  (r.1, { s with filesha := r.2 })

/-- `FilepathTable.getId`. -/
def filepathTable_getId (ro : Bool) (s : DB) (v : String) : Option Nat × DB :=
  let r := tblGetId strEq ro s.filepath v
  (r.1, { s with filepath := r.2 })

/-- The `SELECT id FROM run_v1 WHERE host_id = ? AND starttime = ?` lookup. -/
def runFind (rows : List RunRow) (hid : Option Nat) (t : Int) : Option Nat :=
  (rows.find? (fun r => sqlEqO r.hostId hid && r.starttime == t)).map (fun r => r.id)

/-- Next AUTOINCREMENT id of `run_v1`. -/
def runFreshId (rows : List RunRow) : Nat :=
  (rows.foldr (fun r m => Nat.max r.id m) 0) + 1

/-- The inherited `Table.getId` body as it runs on `run_v1`: endtime and
status_id of a newly inserted row are NULL. -/
def runRawGetId (ro : Bool) (rows : List RunRow) (hid : Option Nat) (t : Int) :
    Option Nat × List RunRow :=
  match runFind rows hid t with
  | some i => (some i, rows)
  | none =>
    if ro then (none, rows)
    else (some (runFreshId rows), rows ++ [⟨runFreshId rows, hid, t, none, none⟩])

/-- Does `WHERE id = ?` hold for a row id against a possibly-NULL parameter. -/
def rowIdMatches (i : Nat) : Option Nat → Bool
  | some r => i == r
  | none => false

/-- Effect of `UPDATE run_v1 SET status_id = ? WHERE id = ?` on one row. -/
def updStatusRow (runId : Option Nat) (sid : Option Nat) (row : RunRow) : RunRow :=
  if rowIdMatches row.id runId then { row with statusId := sid } else row

/-- Effect of `UPDATE run_v1 SET endtime = ? WHERE id = ?` on one row. -/
def updEndRow (runId : Option Nat) (e : Option Int) (row : RunRow) : RunRow :=
  if rowIdMatches row.id runId then { row with endtime := e } else row

/-- `RunTable.updateStatus`: resolve (or create) the status string, then
`UPDATE run_v1 SET status_id = ? WHERE id = ?`. -/
def runTable_updateStatus (ro : Bool) (s : DB) (runId : Option Nat) (status : String) : DB :=
  let r := statusTable_getId ro s status
  { r.2 with run := r.2.run.map (updStatusRow runId r.1) }

/-- `RunTable.updateEndtime`: `UPDATE run_v1 SET endtime = ? WHERE id = ?`. -/
def runTable_updateEndtime (s : DB) (runId : Option Nat) (e : Option Int) : DB :=
  { s with run := s.run.map (updEndRow runId e) }

/-- `RunTable.getId` (the spec's `Open`): resolve the host, get-or-create the
run keyed by `(host_id, starttime)`, then set its status to `"Setup"`. -/
def runTable_getId (ro : Bool) (s : DB) (host : String) (timestamp : Int) :
    Option Nat × DB :=
  let h := hostTable_getId ro s host
  let rr := runRawGetId ro h.2.run h.1 timestamp
  let s2 : DB := { h.2 with run := rr.2 }
  (rr.1, runTable_updateStatus ro s2 rr.1 "Setup")

/-- `DirectoryTable.getId`: resolve the path, then get-or-create the
observation row on the full attribute tuple. -/
def directoryTable_getId (ro : Bool) (s : DB) (runId : Option Nat) (filepath : String)
    (fileowner filegroup filemode filetime : Int) : Option Nat × DB :=
  let p := filepathTable_getId ro s filepath
  let r := tblGetId dirKeyEq ro p.2.directory
    ⟨runId, p.1, fileowner, filegroup, filemode, filetime⟩
  (r.1, { p.2 with directory := r.2 })

/-- `LinkTable.getId`: resolve both paths, then get-or-create the row. -/
def linkTable_getId (ro : Bool) (s : DB) (runId : Option Nat) (filepath destpath : String) :
    Option Nat × DB :=
  let p := filepathTable_getId ro s filepath
  let d := filepathTable_getId ro p.2 destpath
  let r := tblGetId linkKeyEq ro d.2.link ⟨runId, p.1, d.1⟩
  (r.1, { d.2 with link := r.2 })

/-- `FileTable.getId`: resolve path and content hash, then get-or-create the
row on the full attribute tuple. -/
def fileTable_getId (ro : Bool) (s : DB) (runId : Option Nat) (filepath : String)
    (fileowner filegroup filemode filesize filetime : Int) (filesha : String) :
    Option Nat × DB :=
  let p := filepathTable_getId ro s filepath
  let sh := fileshaTable_getId ro p.2 filesha
  let r := tblGetId fileKeyEq ro sh.2.file
    ⟨runId, p.1, fileowner, filegroup, filemode, filesize, filetime, sh.1⟩
  (r.1, { sh.2 with file := r.2 })

/-- ASCII lower-casing as SQLite applies it inside `LIKE` (only A-Z fold). -/
def lowerChar (c : Char) : Char :=
  if 'A' ≤ c && c ≤ 'Z' then Char.ofNat (c.toNat + 32) else c

/-- SQLite `LIKE` matching on character lists: `%` matches any run (some
suffix of the text continues the match), `_` any one character, everything
else matches up to ASCII case.  No ESCAPE clause is used anywhere in the
source. -/
def likeChars : List Char → List Char → Bool
  | [], ts => ts.isEmpty
  | p :: ps, ts =>
    if p == '%' then
      ts.tails.any (fun suf => likeChars ps suf)
    else
      match ts with
      | [] => false
      | t :: ts2 =>
        (if p == '_' then true else lowerChar p == lowerChar t) && likeChars ps ts2

/-- SQLite `pattern LIKE` applied to strings. -/
def likeStr (pattern text : String) : Bool := likeChars pattern.data text.data

/-- Case-insensitive (ASCII) prefix test on character lists. -/
def charsStartWithCI : List Char → List Char → Bool
  | [], _ => true
  | _ :: _, [] => false
  | n :: ns, h :: hs => lowerChar n == lowerChar h && charsStartWithCI ns hs

/-- Case-insensitive (ASCII) substring test on character lists. -/
def charsContainsCI (needle : List Char) : List Char → Bool
  | [] => needle.isEmpty
  | c :: cs => charsStartWithCI needle (c :: cs) || charsContainsCI needle cs

/-- Case-insensitive (ASCII) substring test on strings. -/
def ciContains (needle hay : String) : Bool := charsContainsCI needle.data hay.data

/-- Case-sensitive prefix test on character lists. -/
def charsStartWithCS : List Char → List Char → Bool
  | [], _ => true
  | _ :: _, [] => false
  | n :: ns, h :: hs => n == h && charsStartWithCS ns hs

/-- Case-sensitive substring test on character lists. -/
def charsContainsCS (needle : List Char) : List Char → Bool
  | [] => needle.isEmpty
  | c :: cs => charsStartWithCS needle (c :: cs) || charsContainsCS needle cs

/-- Case-sensitive substring test on strings. -/
def csContains (needle hay : String) : Bool := charsContainsCS needle.data hay.data

/-- True when a string holds no `LIKE` wildcard character. -/
def wildcardFree (t : String) : Bool := t.data.all (fun c => !(c == '%' || c == '_'))

/-- Candidate rows of `FileTable.getExistingRecord_select`: for every
filesha/file/run combination satisfying the WHERE clause, the run start time
paired with the stored hash string. -/
def existingCands (s : DB) (hid pid : Option Nat) (filesize filetime : Int) :
    List (Int × String) :=
  s.filesha.flatMap (fun sh =>
    s.file.flatMap (fun f =>
      (s.run.filter (fun r =>
          sqlEqO r.hostId hid && sqlEqO f.2.pathId pid &&
          f.2.filesize == filesize && f.2.filetime == filetime &&
          sqlEqO f.2.runId (some r.id) && sqlEqO (some sh.1) f.2.shaId)).map
        (fun r => (r.starttime, sh.2))))

/-- `ORDER BY r.starttime DESC LIMIT 1`: a candidate whose start time is
maximal (the earlier listed one on ties). -/
def bestRow : List (Int × String) → Option (Int × String)
  | [] => none
  | x :: xs =>
    match bestRow xs with
    | none => some x
    | some y => if y.1 ≤ x.1 then some x else some y

/-- `FileTable.getExistingRecord` (the spec's `FindKnownHash`): resolve host and
path through their dictionaries (inserting on a miss unless read-only), then
return the hash of the matching file row from the run with the latest start
time, or `none`. -/
def fileTable_getExistingRecord (ro : Bool) (s : DB) (host filepath : String)
    (filesize filetime : Int) : Option String × DB :=
  let h := hostTable_getId ro s host
  let p := filepathTable_getId ro h.2 filepath
  ((bestRow (existingCands p.2 h.1 p.1 filesize filetime)).map (fun x => x.2), p.2)

/-- A record yielded by `DirectoryTable.restoreList`. -/
structure DirRec where
  filepath : String
  fileowner : Int
  filegroup : Int
  filemode : Int
  filetime : Int
  deriving DecidableEq

/-- A record yielded by `LinkTable.restoreList`. -/
structure LinkRec where
  filepath : String
  destpath : String
  deriving DecidableEq

/-- A record yielded by `FileTable.restoreList`. -/
structure FileRec where
  filepath : String
  fileowner : Int
  filegroup : Int
  filemode : Int
  filetime : Int
  filesha : String
  deriving DecidableEq

/-- The python exceptions the embedded code can raise. -/
inductive PyErr where
  | nameError
  deriving DecidableEq

/-- `DirectoryTable.restoreList`: with an empty subject list, every directory
row of the run joined back to its path string; otherwise, for each subject in
order, the rows whose path matches `subject LIKE`-extended with `%`. -/
def directoryTable_restoreList (s : DB) (runId : Option Nat) (subjectlist : List String) :
    List DirRec :=
  if subjectlist.length == 0 then
    s.directory.flatMap (fun d =>
      (s.filepath.filter (fun p => sqlEqO d.2.pathId (some p.1) && sqlEqO d.2.runId runId)).map
        (fun p => ⟨p.2, d.2.fileowner, d.2.filegroup, d.2.filemode, d.2.filetime⟩))
  else
    subjectlist.flatMap (fun subject =>
      s.directory.flatMap (fun d =>
        (s.filepath.filter (fun p => sqlEqO d.2.pathId (some p.1) &&
            sqlEqO d.2.runId runId && likeStr (subject ++ "%") p.2)).map
          (fun p => ⟨p.2, d.2.fileowner, d.2.filegroup, d.2.filemode, d.2.filetime⟩)))

/-- `LinkTable.restoreList`: with an empty subject list it yields every link of
the run; the non-empty branch of the source reads the undefined name
`subjects` instead of `subjectlist` and so raises `NameError` before running
any query. -/
def linkTable_restoreList (s : DB) (runId : Option Nat) (subjectlist : List String) :
    Except PyErr (List LinkRec) :=
  if subjectlist.length == 0 then
    Except.ok (s.link.flatMap (fun l =>
      s.filepath.flatMap (fun sp =>
        (s.filepath.filter (fun dp => sqlEqO l.2.pathId (some sp.1) &&
            sqlEqO l.2.destId (some dp.1) && sqlEqO l.2.runId runId)).map
          (fun dp => ⟨sp.2, dp.2⟩))))
  else
    Except.error PyErr.nameError

/-- `FileTable.restoreList`: with an empty subject list it yields every file of
the run joined to path and hash; the non-empty branch of the source reads the
undefined name `subjects` instead of `subjectlist` and so raises `NameError`
before running any query. -/
def fileTable_restoreList (s : DB) (runId : Option Nat) (subjectlist : List String) :
    Except PyErr (List FileRec) :=
  if subjectlist.length == 0 then
    Except.ok (s.file.flatMap (fun f =>
      s.filepath.flatMap (fun p =>
        (s.filesha.filter (fun sh => sqlEqO (some p.1) f.2.pathId &&
            sqlEqO (some sh.1) f.2.shaId && sqlEqO f.2.runId runId)).map
          (fun sh => ⟨p.2, f.2.fileowner, f.2.filegroup, f.2.filemode, f.2.filetime, sh.2⟩))))
  else
    Except.error PyErr.nameError

/-- A record yielded by `FilepathTable.search`. -/
structure SearchRec where
  kind : String
  host : String
  filetime : Int
  filepath : String
  deriving DecidableEq

/-- Insertion step of the `ORDER BY` model. -/
def insertKey {α : Type} (key : α → Int) (x : α) : List α → List α
  | [] => [x]
  | y :: ys => if key x ≤ key y then x :: y :: ys else y :: insertKey key x ys

/-- `ORDER BY key` modelled as insertion sort (ascending, stable). -/
def sortKey {α : Type} (key : α → Int) : List α → List α
  | [] => []
  | x :: xs => insertKey key x (sortKey key xs)

/-- Rows of the `search_dir` query for one pattern: the DISTINCT host, file
time and path of every directory observation whose path matches, ordered by
file time. -/
def searchDirRows (s : DB) (pat : String) : List SearchRec :=
  sortKey (fun r => r.filetime) (List.dedup
    (s.host.flatMap (fun h =>
      s.directory.flatMap (fun f =>
        s.filepath.flatMap (fun p =>
          (s.run.filter (fun r =>
              likeStr pat p.2 && sqlEqO (some h.1) r.hostId &&
              sqlEqO (some r.id) f.2.runId && sqlEqO (some p.1) f.2.pathId)).map
            (fun _ => SearchRec.mk "DIR" h.2 f.2.filetime p.2))))))

/-- Rows of the `search_link` query for one pattern: link observations carry
the literal `0` in the time column and no ORDER BY. -/
def searchLinkRows (s : DB) (pat : String) : List SearchRec :=
  List.dedup
    (s.host.flatMap (fun h =>
      s.link.flatMap (fun f =>
        s.filepath.flatMap (fun p =>
          (s.run.filter (fun r =>
              likeStr pat p.2 && sqlEqO (some h.1) r.hostId &&
              sqlEqO (some r.id) f.2.runId && sqlEqO (some p.1) f.2.pathId)).map
            (fun _ => SearchRec.mk "LINK" h.2 0 p.2)))))

/-- Rows of the `search_file` query for one pattern, ordered by file time. -/
def searchFileRows (s : DB) (pat : String) : List SearchRec :=
  sortKey (fun r => r.filetime) (List.dedup
    (s.host.flatMap (fun h =>
      s.file.flatMap (fun f =>
        s.filepath.flatMap (fun p =>
          (s.run.filter (fun r =>
              likeStr pat p.2 && sqlEqO (some h.1) r.hostId &&
              sqlEqO (some r.id) f.2.runId && sqlEqO (some p.1) f.2.pathId)).map
            (fun _ => SearchRec.mk "FILE" h.2 f.2.filetime p.2))))))

/-- `FilepathTable.search`: for each term, the dir, link and file query results
for the pattern `%term%`, concatenated in that order. -/
def filepathTable_search (s : DB) (subjectlist : List String) : List SearchRec :=
  subjectlist.flatMap (fun term =>
    searchDirRows s ("%" ++ term ++ "%") ++ searchLinkRows s ("%" ++ term ++ "%") ++
      searchFileRows s ("%" ++ term ++ "%"))

/-- A record yielded by `RunTable.listBackups`. -/
structure BackupRec where
  runId : Nat
  host : String
  starttime : Int
  endtime : Option Int
  status : String
  deriving DecidableEq

/-- `RunTable.listBackups` (the spec's `ListRuns`).  `now` stands for the value
`time.time()` returns when `notAfter` is omitted.  A run whose endtime is NULL
fails `r.endtime >= ?` and is never listed; host and status are resolved
through inner joins. -/
def runTable_listBackups (s : DB) (host : Option String) (notBefore notAfter : Option Int)
    (now : Int) : List BackupRec :=
  let nb := notBefore.getD 0
  let na := notAfter.getD now
  sortKey (fun r => r.starttime)
    (s.run.flatMap (fun r =>
      s.host.flatMap (fun h =>
        (s.status.filter (fun st =>
            (match host with | some hn => h.2 == hn | none => true) &&
            (match r.endtime with | some e => decide (nb ≤ e) | none => false) &&
            decide (r.starttime ≤ na) &&
            sqlEqO (some h.1) r.hostId && sqlEqO (some st.1) r.statusId)).map
          (fun st => BackupRec.mk r.id h.2 r.starttime r.endtime st.2))))

/-- One directory row read from a source catalog by `integrate.py`. -/
structure SrcDir where
  filepath : String
  fileowner : Int
  filegroup : Int
  filemode : Int
  filetime : Int

/-- One link row read from a source catalog by `integrate.py`. -/
structure SrcLink where
  filepath : String
  destpath : String

/-- One file row read from a source catalog by `integrate.py`. -/
structure SrcFile where
  filepath : String
  fileowner : Int
  filegroup : Int
  filemode : Int
  filesize : Int
  filetime : Int
  filesha : String

/-- One run of a source catalog as `integrate.py` reads it: the run joined to
its host and status strings, with the directory, link and file rows belonging
to it. -/
structure SrcRun where
  host : String
  starttime : Int
  endtime : Option Int
  status : String
  dirs : List SrcDir
  links : List SrcLink
  files : List SrcFile

/-- One iteration of the directory-copy loop of `integrate.py`. -/
def dirStep (rid : Option Nat) (acc : DB) (d : SrcDir) : DB :=
  (directoryTable_getId false acc rid d.filepath d.fileowner d.filegroup
    d.filemode d.filetime).2

/-- One iteration of the link-copy loop of `integrate.py`. -/
def linkStep (rid : Option Nat) (acc : DB) (l : SrcLink) : DB :=
  (linkTable_getId false acc rid l.filepath l.destpath).2

/-- One iteration of the file-copy loop of `integrate.py`. -/
def fileStep (rid : Option Nat) (acc : DB) (f : SrcFile) : DB :=
  (fileTable_getId false acc rid f.filepath f.fileowner f.filegroup f.filemode
    f.filesize f.filetime f.filesha).2

/-- The body of the per-run loop of `integrate.py`: open the destination run,
copy status and endtime, then replay every directory, link and file
observation through the destination `getId` calls. -/
def integrateRun (s : DB) (it : SrcRun) : DB :=
  let r := runTable_getId false s it.host it.starttime
  let s1 := runTable_updateStatus false r.2 r.1 it.status
  let s2 := runTable_updateEndtime s1 r.1 it.endtime
  let s3 := it.dirs.foldl (dirStep r.1) s2
  let s4 := it.links.foldl (linkStep r.1) s3
  it.files.foldl (fileStep r.1) s4

/-- Integration of one source catalog: its runs in order. -/
def integrateSource (s : DB) (runs : List SrcRun) : DB :=
  runs.foldl integrateRun s

/-- `integrate.py` `main` over the already-extracted sources: each source
catalog in command-line order. -/
def integrate (s : DB) (sources : List (List SrcRun)) : DB :=
  sources.foldl integrateSource s

/-- Number of rows of a table matching a key. -/
def countKey {α : Type} (eq : α → α → Bool) (rows : Tbl α) (v : α) : Nat :=
  (rows.filter (fun r => eq r.2 v)).length

/-- The catalog right after table creation: every table empty. -/
def emptyDB : DB := ⟨[], [], [], [], [], [], [], []⟩

/-- A small concrete catalog used to evaluate the embedded queries: one host,
one completed run owning two directories, one link and one file observation. -/
def cdb1 : DB :=
  { status := [(1, "Setup"), (2, "Done")]
    host := [(1, "h")]
    filesha := [(1, "abc123")]
    filepath := [(1, "/etc/passwd"), (2, "/var/log"), (3, "/etc"), (4, "target")]
    run := [⟨1, some 1, 10, some 20, some 2⟩]
    directory := [(1, ⟨some 1, some 3, 0, 0, 493, 5⟩), (2, ⟨some 1, some 2, 0, 0, 493, 6⟩)]
    link := [(1, ⟨some 1, some 2, some 4⟩)]
    file := [(1, ⟨some 1, some 1, 0, 0, 420, 1200, 5, some 1⟩)] }

/-- A one-run source catalog used to instantiate the integration theorems. -/
def csrc1 : SrcRun :=
  { host := "h"
    starttime := 10
    endtime := some 20
    status := "Done"
    dirs := [⟨"/etc", 0, 0, 493, 5⟩]
    links := [⟨"/var/log/x", "target"⟩]
    files := [⟨"/etc/passwd", 0, 0, 420, 1200, 5, "abc123"⟩] }

/-- Mapping a function that fixes every element of a list is the identity. -/
theorem listMapSelf {α : Type} (f : α → α) (l : List α) (h : ∀ x ∈ l, f x = x) :
    l.map f = l := by
  induction l with
  | nil => rfl
  | cons a as ih =>
    simp only [List.map_cons]
    rw [h a (by simp), ih (fun x hx => h x (by simp [hx]))]

/-- A successful dictionary lookup is unchanged by rows appended later. -/
theorem tblFind_append {α : Type} (eq : α → α → Bool) (rows ext : Tbl α) (v : α) (i : Nat)
    (h : tblFind eq rows v = some i) : tblFind eq (rows ++ ext) v = some i := by
  unfold tblFind at h ⊢
  cases hf : rows.find? (fun r => eq r.2 v) with
  | none => rw [hf] at h; simp at h
  | some r =>
    rw [List.find?_append, hf]
    rw [hf] at h
    exact h

/-- On a hit, `Table.getId` returns the found id and leaves the table alone. -/
theorem tblGetId_found {α : Type} (eq : α → α → Bool) (ro : Bool) (rows : Tbl α) (v : α)
    (i : Nat) (h : tblFind eq rows v = some i) : tblGetId eq ro rows v = (some i, rows) := by
  unfold tblGetId
  rw [h]

/-- `Table.getId` only ever appends rows. -/
theorem tblGetId_ext {α : Type} (eq : α → α → Bool) (ro : Bool) (rows : Tbl α) (v : α) :
    ∃ ext, (tblGetId eq ro rows v).2 = rows ++ ext := by
  unfold tblGetId
  cases h : tblFind eq rows v with
  | some i => exact ⟨[], by simp⟩
  | none =>
    cases ro with
    | true => exact ⟨[], by simp⟩
    | false => exact ⟨[(freshId rows, v)], rfl⟩

/-- On a miss in read-only mode, `Table.getId` returns `none` and changes nothing. -/
theorem tblGetId_missRO {α : Type} (eq : α → α → Bool) (rows : Tbl α) (v : α)
    (h : tblFind eq rows v = none) : tblGetId eq true rows v = (none, rows) := by
  unfold tblGetId
  rw [h]
  rfl

/-- On a miss in write mode, `Table.getId` appends a fresh row and returns its id. -/
theorem tblGetId_missRW {α : Type} (eq : α → α → Bool) (rows : Tbl α) (v : α)
    (h : tblFind eq rows v = none) :
    tblGetId eq false rows v = (some (freshId rows), rows ++ [(freshId rows, v)]) := by
  unfold tblGetId
  rw [h]
  rfl

/-- After appending the fresh row, the key is found under the fresh id provided
nothing before it matched. -/
theorem tblFind_appendFresh {α : Type} (eq : α → α → Bool) (rows : Tbl α) (v : α)
    (hrefl : eq v v = true) (h : tblFind eq rows v = none) :
    tblFind eq (rows ++ [(freshId rows, v)]) v = some (freshId rows) := by
  unfold tblFind at h ⊢
  cases hf : rows.find? (fun r => eq r.2 v) with
  | some r => rw [hf] at h; simp at h
  | none =>
    rw [List.find?_append, hf]
    simp [List.find?, hrefl]

/-- In write mode, `Table.getId` always returns an id and the key is found
afterwards under that id. -/
theorem tblGetId_post {α : Type} (eq : α → α → Bool) (rows : Tbl α) (v : α)
    (hrefl : eq v v = true) :
    ∃ i, (tblGetId eq false rows v).1 = some i ∧
      tblFind eq (tblGetId eq false rows v).2 v = some i := by
  cases h : tblFind eq rows v with
  | some i =>
    rw [tblGetId_found eq false rows v i h]
    exact ⟨i, rfl, h⟩
  | none =>
    rw [tblGetId_missRW eq rows v h]
    exact ⟨freshId rows, rfl, tblFind_appendFresh eq rows v hrefl h⟩

/-- Calling `Table.getId` twice with the same key gives the same id and the
same table: the second call changes nothing. -/
theorem tblGetId_idem {α : Type} (eq : α → α → Bool) (ro : Bool) (rows : Tbl α) (v : α)
    (hrefl : eq v v = true) :
    tblGetId eq ro (tblGetId eq ro rows v).2 v = tblGetId eq ro rows v := by
  cases hro : ro with
  | false =>
    obtain ⟨i, h1, h2⟩ := tblGetId_post eq rows v hrefl
    rw [tblGetId_found eq false _ v i h2]
    cases hg : tblGetId eq false rows v with
    | mk a b =>
      rw [hg] at h1
      simp at h1
      rw [h1]
  | true =>
    cases h : tblFind eq rows v with
    | some i =>
      rw [tblGetId_found eq true rows v i h, tblGetId_found eq true rows v i h]
    | none =>
      rw [tblGetId_missRO eq rows v h, tblGetId_missRO eq rows v h]

/-- In write mode `Table.getId` never returns `None`. -/
theorem tblGetId_false_some {α : Type} (eq : α → α → Bool) (rows : Tbl α) (v : α) :
    ∃ n, (tblGetId eq false rows v).1 = some n := by
  cases h : tblFind eq rows v with
  | some i => rw [tblGetId_found eq false rows v i h]; exact ⟨i, rfl⟩
  | none => rw [tblGetId_missRW eq rows v h]; exact ⟨freshId rows, rfl⟩

/-- SQL TEXT equality is reflexive. -/
theorem strEq_refl (v : String) : strEq v v = true := by
  simp [strEq]

/-- A successful run lookup is unchanged by rows appended later. -/
theorem runFind_append (rows ext : List RunRow) (hid : Option Nat) (t : Int) (i : Nat)
    (h : runFind rows hid t = some i) : runFind (rows ++ ext) hid t = some i := by
  unfold runFind at h ⊢
  cases hf : rows.find? (fun r => sqlEqO r.hostId hid && r.starttime == t) with
  | none => rw [hf] at h; simp at h
  | some r =>
    rw [List.find?_append, hf]
    rw [hf] at h
    exact h

/-- On a hit, the run-table get-or-create returns the found id unchanged. -/
theorem runRawGetId_found (ro : Bool) (rows : List RunRow) (hid : Option Nat) (t : Int)
    (i : Nat) (h : runFind rows hid t = some i) : runRawGetId ro rows hid t = (some i, rows) := by
  unfold runRawGetId
  rw [h]

/-- On a miss in read-only mode, the run-table get-or-create changes nothing. -/
theorem runRawGetId_missRO (rows : List RunRow) (hid : Option Nat) (t : Int)
    (h : runFind rows hid t = none) : runRawGetId true rows hid t = (none, rows) := by
  unfold runRawGetId
  rw [h]
  rfl

/-- On a miss in write mode, the run-table get-or-create appends a fresh row
whose endtime and status are NULL. -/
theorem runRawGetId_missRW (rows : List RunRow) (hid : Option Nat) (t : Int)
    (h : runFind rows hid t = none) :
    runRawGetId false rows hid t =
      (some (runFreshId rows), rows ++ [⟨runFreshId rows, hid, t, none, none⟩]) := by
  unfold runRawGetId
  rw [h]
  rfl

/-- The freshly inserted run row is found under the fresh id when the host id
parameter is not NULL. -/
theorem runFind_appendFresh (rows : List RunRow) (nh : Nat) (t : Int)
    (h : runFind rows (some nh) t = none) :
    runFind (rows ++ [⟨runFreshId rows, some nh, t, none, none⟩]) (some nh) t =
      some (runFreshId rows) := by
  unfold runFind at h ⊢
  cases hf : rows.find? (fun r => sqlEqO r.hostId (some nh) && r.starttime == t) with
  | some r => rw [hf] at h; simp at h
  | none =>
    rw [List.find?_append, hf]
    simp [List.find?, sqlEqO]

/-- Run lookups only inspect the id, host id and start time of each row, so a
row transformation preserving those preserves the lookup. -/
theorem runFind_map (f : RunRow → RunRow)
    (hf : ∀ r, (f r).id = r.id ∧ (f r).hostId = r.hostId ∧ (f r).starttime = r.starttime)
    (rows : List RunRow) (hid : Option Nat) (t : Int) :
    runFind (rows.map f) hid t = runFind rows hid t := by
  induction rows with
  | nil => rfl
  | cons a as ih =>
    unfold runFind at ih ⊢
    simp only [List.map_cons, List.find?_cons]
    rw [(hf a).2.1, (hf a).2.2]
    cases hc : (sqlEqO a.hostId hid && a.starttime == t) with
    | true => simp [(hf a).1]
    | false => exact ih

/-- Setting the status of a row does not touch its key columns. -/
theorem updStatusRow_keys (rid sid : Option Nat) (r : RunRow) :
    (updStatusRow rid sid r).id = r.id ∧ (updStatusRow rid sid r).hostId = r.hostId ∧
      (updStatusRow rid sid r).starttime = r.starttime := by
  unfold updStatusRow
  split <;> simp

/-- Setting the endtime of a row does not touch its key columns. -/
theorem updEndRow_keys (rid : Option Nat) (e : Option Int) (r : RunRow) :
    (updEndRow rid e r).id = r.id ∧ (updEndRow rid e r).hostId = r.hostId ∧
      (updEndRow rid e r).starttime = r.starttime := by
  unfold updEndRow
  split <;> simp

/-- An UPDATE whose id parameter is NULL touches no row. -/
theorem updStatusRow_none (sid : Option Nat) (r : RunRow) : updStatusRow none sid r = r := by
  unfold updStatusRow
  simp [rowIdMatches]

/-- Re-applying the same status update changes nothing. -/
theorem updStatusRow_idem (rid sid : Option Nat) (r : RunRow) :
    updStatusRow rid sid (updStatusRow rid sid r) = updStatusRow rid sid r := by
  cases h : rowIdMatches r.id rid with
  | true => simp [updStatusRow, h]
  | false => simp [updStatusRow, h]

/-- Re-applying the same status update to a whole run table changes nothing. -/
theorem map_updStatusRow_idem (rid sid : Option Nat) (l : List RunRow) :
    (l.map (updStatusRow rid sid)).map (updStatusRow rid sid) = l.map (updStatusRow rid sid) := by
  apply listMapSelf
  intro x hx
  obtain ⟨y, _, rfl⟩ := List.mem_map.mp hx
  exact updStatusRow_idem rid sid y

/-- `RunTable.getId` written out on the record fields. -/
theorem runTable_getId_eq (ro : Bool) (s : DB) (host : String) (t : Int) :
    runTable_getId ro s host t =
      ((runRawGetId ro s.run (tblGetId strEq ro s.host host).1 t).1,
       DB.mk (tblGetId strEq ro s.status "Setup").2 (tblGetId strEq ro s.host host).2
         s.filesha s.filepath
         ((runRawGetId ro s.run (tblGetId strEq ro s.host host).1 t).2.map
           (updStatusRow (runRawGetId ro s.run (tblGetId strEq ro s.host host).1 t).1
             (tblGetId strEq ro s.status "Setup").1))
         s.directory s.link s.file) := rfl

/-- Calling `Open` a second time with the same `(host, startTime)` returns the
same run id and leaves the catalog exactly as the first call left it. -/
theorem runTable_getId_idem (ro : Bool) (s : DB) (host : String) (t : Int) :
    runTable_getId ro (runTable_getId ro s host t).2 host t = runTable_getId ro s host t := by
  have hA := tblGetId_idem strEq ro s.host host (strEq_refl host)
  have hB := tblGetId_idem strEq ro s.status "Setup" (strEq_refl "Setup")
  have key : runRawGetId ro
      ((runRawGetId ro s.run (tblGetId strEq ro s.host host).1 t).2.map
        (updStatusRow (runRawGetId ro s.run (tblGetId strEq ro s.host host).1 t).1
          (tblGetId strEq ro s.status "Setup").1))
      (tblGetId strEq ro s.host host).1 t =
      ((runRawGetId ro s.run (tblGetId strEq ro s.host host).1 t).1,
       (runRawGetId ro s.run (tblGetId strEq ro s.host host).1 t).2.map
        (updStatusRow (runRawGetId ro s.run (tblGetId strEq ro s.host host).1 t).1
          (tblGetId strEq ro s.status "Setup").1)) := by
    cases hfr : runFind s.run (tblGetId strEq ro s.host host).1 t with
    | some i =>
      rw [runRawGetId_found ro s.run _ t i hfr]
      exact runRawGetId_found ro _ _ t i
        (by rw [runFind_map _ (fun r => updStatusRow_keys _ _ r) s.run _ t]; exact hfr)
    | none =>
      cases ro with
      | true =>
        rw [runRawGetId_missRO s.run _ t hfr]
        dsimp only
        rw [listMapSelf _ s.run (fun x _ => updStatusRow_none _ x)]
        exact runRawGetId_missRO s.run _ t hfr
      | false =>
        obtain ⟨nh, hnh⟩ := tblGetId_false_some strEq s.host host
        rw [hnh] at hfr ⊢
        rw [runRawGetId_missRW s.run _ t hfr]
        dsimp only
        apply runRawGetId_found
        rw [runFind_map _ (fun r => updStatusRow_keys _ _ r)]
        exact runFind_appendFresh s.run nh t hfr
  rw [runTable_getId_eq ro s host t]
  dsimp only
  rw [runTable_getId_eq]
  dsimp only
  rw [hA, hB, key]
  dsimp only
  rw [map_updStatusRow_idem]

/-- `DirectoryTable.getId` written out on the record fields. -/
theorem directoryTable_getId_eq (ro : Bool) (s : DB) (rid : Option Nat) (path : String)
    (o g m tm : Int) :
    directoryTable_getId ro s rid path o g m tm =
      ((tblGetId dirKeyEq ro s.directory
          ⟨rid, (tblGetId strEq ro s.filepath path).1, o, g, m, tm⟩).1,
       DB.mk s.status s.host s.filesha (tblGetId strEq ro s.filepath path).2 s.run
         (tblGetId dirKeyEq ro s.directory
           ⟨rid, (tblGetId strEq ro s.filepath path).1, o, g, m, tm⟩).2
         s.link s.file) := rfl

/-- `LinkTable.getId` written out on the record fields: note the second path
lookup runs on the filepath table as the first lookup left it. -/
theorem linkTable_getId_eq (ro : Bool) (s : DB) (rid : Option Nat) (path dest : String) :
    linkTable_getId ro s rid path dest =
      ((tblGetId linkKeyEq ro s.link
          ⟨rid, (tblGetId strEq ro s.filepath path).1,
            (tblGetId strEq ro (tblGetId strEq ro s.filepath path).2 dest).1⟩).1,
       DB.mk s.status s.host s.filesha
         (tblGetId strEq ro (tblGetId strEq ro s.filepath path).2 dest).2 s.run s.directory
         (tblGetId linkKeyEq ro s.link
           ⟨rid, (tblGetId strEq ro s.filepath path).1,
             (tblGetId strEq ro (tblGetId strEq ro s.filepath path).2 dest).1⟩).2
         s.file) := rfl

/-- `FileTable.getId` written out on the record fields. -/
theorem fileTable_getId_eq (ro : Bool) (s : DB) (rid : Option Nat) (path : String)
    (o g m sz tm : Int) (sha : String) :
    fileTable_getId ro s rid path o g m sz tm sha =
      ((tblGetId fileKeyEq ro s.file
          ⟨rid, (tblGetId strEq ro s.filepath path).1, o, g, m, sz, tm,
            (tblGetId strEq ro s.filesha sha).1⟩).1,
       DB.mk s.status s.host (tblGetId strEq ro s.filesha sha).2
         (tblGetId strEq ro s.filepath path).2 s.run s.directory s.link
         (tblGetId fileKeyEq ro s.file
           ⟨rid, (tblGetId strEq ro s.filepath path).1, o, g, m, sz, tm,
             (tblGetId strEq ro s.filesha sha).1⟩).2) := rfl

/-- `FileTable.getExistingRecord` written out on the record fields. -/
theorem fileTable_getExistingRecord_eq (ro : Bool) (s : DB) (host path : String)
    (sz tm : Int) :
    fileTable_getExistingRecord ro s host path sz tm =
      ((bestRow (existingCands
          (DB.mk s.status (tblGetId strEq ro s.host host).2 s.filesha
            (tblGetId strEq ro s.filepath path).2 s.run s.directory s.link s.file)
          (tblGetId strEq ro s.host host).1 (tblGetId strEq ro s.filepath path).1
          sz tm)).map (fun x => x.2),
       DB.mk s.status (tblGetId strEq ro s.host host).2 s.filesha
         (tblGetId strEq ro s.filepath path).2 s.run s.directory s.link s.file) := rfl

/-- The key columns of a run row that every lookup depends on. -/
def runKeyOf (r : RunRow) : Nat × Option Nat × Int := (r.id, r.hostId, r.starttime)

/-- Run lookup phrased on key triples only. -/
def runFindK (keys : List (Nat × Option Nat × Int)) (hid : Option Nat) (t : Int) : Option Nat :=
  (keys.find? (fun k => sqlEqO k.2.1 hid && k.2.2 == t)).map (fun k => k.1)

/-- `runFind` only looks at the key triples. -/
theorem runFind_eq_K (rows : List RunRow) (hid : Option Nat) (t : Int) :
    runFind rows hid t = runFindK (rows.map runKeyOf) hid t := by
  induction rows with
  | nil => rfl
  | cons a as ih =>
    unfold runFind runFindK at ih ⊢
    simp only [List.map_cons, List.find?_cons]
    cases hc : (sqlEqO a.hostId hid && a.starttime == t) with
    | true => simp [runKeyOf, hc]
    | false => simp only [runKeyOf] at ih ⊢; rw [hc]; exact ih

/-- A successful `find?` is unchanged by appending rows. -/
theorem find?_append_some {α : Type} (p : α → Bool) (l e : List α) (x : α)
    (h : l.find? p = some x) : (l ++ e).find? p = some x := by
  rw [List.find?_append, h]
  rfl

/-- A successful key-level run lookup is unchanged by appended keys. -/
theorem runFindK_append (keys ext : List (Nat × Option Nat × Int)) (hid : Option Nat)
    (t : Int) (i : Nat) (h : runFindK keys hid t = some i) :
    runFindK (keys ++ ext) hid t = some i := by
  unfold runFindK at h ⊢
  cases hf : keys.find? (fun k => sqlEqO k.2.1 hid && k.2.2 == t) with
  | none => rw [hf] at h; simp at h
  | some r =>
    rw [find?_append_some _ keys ext r hf]
    rw [hf] at h
    exact h

/-- One catalog state extends another: every dictionary and observation table
of `t` is that of `s` plus appended rows, and the run-key sequence likewise. -/
structure Grow (s t : DB) : Prop where
  status : ∃ e, t.status = s.status ++ e
  host : ∃ e, t.host = s.host ++ e
  filesha : ∃ e, t.filesha = s.filesha ++ e
  filepath : ∃ e, t.filepath = s.filepath ++ e
  run : ∃ e, t.run.map runKeyOf = s.run.map runKeyOf ++ e
  directory : ∃ e, t.directory = s.directory ++ e
  link : ∃ e, t.link = s.link ++ e
  file : ∃ e, t.file = s.file ++ e

/-- Growth is reflexive. -/
theorem grow_refl (s : DB) : Grow s s :=
  ⟨⟨[], by simp⟩, ⟨[], by simp⟩, ⟨[], by simp⟩, ⟨[], by simp⟩,
   ⟨[], by simp⟩, ⟨[], by simp⟩, ⟨[], by simp⟩, ⟨[], by simp⟩⟩

/-- Growth is transitive. -/
theorem grow_trans {a b c : DB} (h1 : Grow a b) (h2 : Grow b c) : Grow a c := by
  obtain ⟨⟨e1, p1⟩, ⟨e2, p2⟩, ⟨e3, p3⟩, ⟨e4, p4⟩, ⟨e5, p5⟩, ⟨e6, p6⟩, ⟨e7, p7⟩, ⟨e8, p8⟩⟩ := h1
  obtain ⟨⟨f1, q1⟩, ⟨f2, q2⟩, ⟨f3, q3⟩, ⟨f4, q4⟩, ⟨f5, q5⟩, ⟨f6, q6⟩, ⟨f7, q7⟩, ⟨f8, q8⟩⟩ := h2
  exact ⟨⟨e1 ++ f1, by rw [q1, p1, List.append_assoc]⟩,
         ⟨e2 ++ f2, by rw [q2, p2, List.append_assoc]⟩,
         ⟨e3 ++ f3, by rw [q3, p3, List.append_assoc]⟩,
         ⟨e4 ++ f4, by rw [q4, p4, List.append_assoc]⟩,
         ⟨e5 ++ f5, by rw [q5, p5, List.append_assoc]⟩,
         ⟨e6 ++ f6, by rw [q6, p6, List.append_assoc]⟩,
         ⟨e7 ++ f7, by rw [q7, p7, List.append_assoc]⟩,
         ⟨e8 ++ f8, by rw [q8, p8, List.append_assoc]⟩⟩

/-- Growth through a left fold whose every step grows. -/
theorem grow_foldl {β : Type} (step : DB → β → DB)
    (h : ∀ acc x, Grow acc (step acc x)) (l : List β) :
    ∀ s : DB, Grow s (l.foldl step s) := by
  induction l with
  | nil => intro s; exact grow_refl s
  | cons a as ih =>
    intro s
    exact grow_trans (h s a) (ih (step s a))

/-- Status updates preserve the run-key sequence. -/
theorem runKeys_map_updStatus (rid sid : Option Nat) (l : List RunRow) :
    (l.map (updStatusRow rid sid)).map runKeyOf = l.map runKeyOf := by
  rw [List.map_map]
  apply List.map_congr_left
  intro a _
  obtain ⟨h1, h2, h3⟩ := updStatusRow_keys rid sid a
  simp [runKeyOf, Function.comp, h1, h2, h3]

/-- Endtime updates preserve the run-key sequence. -/
theorem runKeys_map_updEnd (rid : Option Nat) (e : Option Int) (l : List RunRow) :
    (l.map (updEndRow rid e)).map runKeyOf = l.map runKeyOf := by
  rw [List.map_map]
  apply List.map_congr_left
  intro a _
  obtain ⟨h1, h2, h3⟩ := updEndRow_keys rid e a
  simp [runKeyOf, Function.comp, h1, h2, h3]

/-- The run-table get-or-create only appends run keys. -/
theorem runRawGetId_ext (ro : Bool) (rows : List RunRow) (hid : Option Nat) (t : Int) :
    ∃ e, ((runRawGetId ro rows hid t).2).map runKeyOf = rows.map runKeyOf ++ e := by
  cases h : runFind rows hid t with
  | some i =>
    rw [runRawGetId_found ro rows hid t i h]
    exact ⟨[], by simp⟩
  | none =>
    cases ro with
    | true =>
      rw [runRawGetId_missRO rows hid t h]
      exact ⟨[], by simp⟩
    | false =>
      rw [runRawGetId_missRW rows hid t h]
      exact ⟨[runKeyOf ⟨runFreshId rows, hid, t, none, none⟩], by simp⟩

/-- The status dictionary call only grows the catalog. -/
theorem grow_statusGetId (ro : Bool) (s : DB) (v : String) :
    Grow s (statusTable_getId ro s v).2 := by
  obtain ⟨e, he⟩ := tblGetId_ext strEq ro s.status v
  exact ⟨⟨e, he⟩, ⟨[], by simp [statusTable_getId]⟩, ⟨[], by simp [statusTable_getId]⟩,
    ⟨[], by simp [statusTable_getId]⟩, ⟨[], by simp [statusTable_getId]⟩,
    ⟨[], by simp [statusTable_getId]⟩, ⟨[], by simp [statusTable_getId]⟩,
    ⟨[], by simp [statusTable_getId]⟩⟩

/-- The host dictionary call only grows the catalog. -/
theorem grow_hostGetId (ro : Bool) (s : DB) (v : String) :
    Grow s (hostTable_getId ro s v).2 := by
  obtain ⟨e, he⟩ := tblGetId_ext strEq ro s.host v
  exact ⟨⟨[], by simp [hostTable_getId]⟩, ⟨e, he⟩, ⟨[], by simp [hostTable_getId]⟩,
    ⟨[], by simp [hostTable_getId]⟩, ⟨[], by simp [hostTable_getId]⟩,
    ⟨[], by simp [hostTable_getId]⟩, ⟨[], by simp [hostTable_getId]⟩,
    ⟨[], by simp [hostTable_getId]⟩⟩

/-- Setting a run status only grows the catalog (run keys untouched). -/
theorem grow_updateStatus (ro : Bool) (s : DB) (rid : Option Nat) (st : String) :
    Grow s (runTable_updateStatus ro s rid st) := by
  obtain ⟨e, he⟩ := tblGetId_ext strEq ro s.status st
  refine ⟨⟨e, he⟩, ⟨[], by simp [runTable_updateStatus, statusTable_getId]⟩,
    ⟨[], by simp [runTable_updateStatus, statusTable_getId]⟩,
    ⟨[], by simp [runTable_updateStatus, statusTable_getId]⟩,
    ⟨[], ?_⟩, ⟨[], by simp [runTable_updateStatus, statusTable_getId]⟩,
    ⟨[], by simp [runTable_updateStatus, statusTable_getId]⟩,
    ⟨[], by simp [runTable_updateStatus, statusTable_getId]⟩⟩
  rw [List.append_nil]
  exact runKeys_map_updStatus rid _ s.run

/-- Setting a run endtime only grows the catalog (run keys untouched). -/
theorem grow_updateEnd (s : DB) (rid : Option Nat) (e : Option Int) :
    Grow s (runTable_updateEndtime s rid e) := by
  refine ⟨⟨[], by simp [runTable_updateEndtime]⟩, ⟨[], by simp [runTable_updateEndtime]⟩,
    ⟨[], by simp [runTable_updateEndtime]⟩, ⟨[], by simp [runTable_updateEndtime]⟩,
    ⟨[], ?_⟩, ⟨[], by simp [runTable_updateEndtime]⟩,
    ⟨[], by simp [runTable_updateEndtime]⟩, ⟨[], by simp [runTable_updateEndtime]⟩⟩
  rw [List.append_nil]
  exact runKeys_map_updEnd rid e s.run

/-- `Open` only grows the catalog. -/
theorem grow_open (ro : Bool) (s : DB) (h : String) (t : Int) :
    Grow s (runTable_getId ro s h t).2 := by
  rw [runTable_getId_eq]
  obtain ⟨e1, he1⟩ := tblGetId_ext strEq ro s.status "Setup"
  obtain ⟨e2, he2⟩ := tblGetId_ext strEq ro s.host h
  obtain ⟨e5, he5⟩ := runRawGetId_ext ro s.run (tblGetId strEq ro s.host h).1 t
  refine ⟨⟨e1, he1⟩, ⟨e2, he2⟩, ⟨[], by simp⟩, ⟨[], by simp⟩,
    ⟨e5, ?_⟩, ⟨[], by simp⟩, ⟨[], by simp⟩, ⟨[], by simp⟩⟩
  show ((runRawGetId ro s.run (tblGetId strEq ro s.host h).1 t).2.map
    (updStatusRow (runRawGetId ro s.run (tblGetId strEq ro s.host h).1 t).1
      (tblGetId strEq ro s.status "Setup").1)).map runKeyOf = s.run.map runKeyOf ++ e5
  rw [runKeys_map_updStatus]
  exact he5

/-- A directory record call only grows the catalog. -/
theorem grow_dirGetId (ro : Bool) (s : DB) (rid : Option Nat) (path : String)
    (o g m tm : Int) : Grow s (directoryTable_getId ro s rid path o g m tm).2 := by
  rw [directoryTable_getId_eq]
  obtain ⟨e4, he4⟩ := tblGetId_ext strEq ro s.filepath path
  obtain ⟨e6, he6⟩ := tblGetId_ext dirKeyEq ro s.directory
    ⟨rid, (tblGetId strEq ro s.filepath path).1, o, g, m, tm⟩
  exact ⟨⟨[], by simp⟩, ⟨[], by simp⟩, ⟨[], by simp⟩, ⟨e4, he4⟩, ⟨[], by simp⟩,
    ⟨e6, he6⟩, ⟨[], by simp⟩, ⟨[], by simp⟩⟩

/-- A link record call only grows the catalog. -/
theorem grow_linkGetId (ro : Bool) (s : DB) (rid : Option Nat) (path dest : String) :
    Grow s (linkTable_getId ro s rid path dest).2 := by
  rw [linkTable_getId_eq]
  obtain ⟨e4, he4⟩ := tblGetId_ext strEq ro s.filepath path
  obtain ⟨e4b, he4b⟩ := tblGetId_ext strEq ro (tblGetId strEq ro s.filepath path).2 dest
  obtain ⟨e7, he7⟩ := tblGetId_ext linkKeyEq ro s.link
    ⟨rid, (tblGetId strEq ro s.filepath path).1,
      (tblGetId strEq ro (tblGetId strEq ro s.filepath path).2 dest).1⟩
  refine ⟨⟨[], by simp⟩, ⟨[], by simp⟩, ⟨[], by simp⟩, ⟨e4 ++ e4b, ?_⟩, ⟨[], by simp⟩,
    ⟨[], by simp⟩, ⟨e7, he7⟩, ⟨[], by simp⟩⟩
  show (tblGetId strEq ro (tblGetId strEq ro s.filepath path).2 dest).2 =
    s.filepath ++ (e4 ++ e4b)
  rw [he4b, he4, List.append_assoc]

/-- A file record call only grows the catalog. -/
theorem grow_fileGetId (ro : Bool) (s : DB) (rid : Option Nat) (path : String)
    (o g m sz tm : Int) (sha : String) :
    Grow s (fileTable_getId ro s rid path o g m sz tm sha).2 := by
  rw [fileTable_getId_eq]
  obtain ⟨e3, he3⟩ := tblGetId_ext strEq ro s.filesha sha
  obtain ⟨e4, he4⟩ := tblGetId_ext strEq ro s.filepath path
  obtain ⟨e8, he8⟩ := tblGetId_ext fileKeyEq ro s.file
    ⟨rid, (tblGetId strEq ro s.filepath path).1, o, g, m, sz, tm,
      (tblGetId strEq ro s.filesha sha).1⟩
  exact ⟨⟨[], by simp⟩, ⟨[], by simp⟩, ⟨e3, he3⟩, ⟨e4, he4⟩, ⟨[], by simp⟩,
    ⟨[], by simp⟩, ⟨[], by simp⟩, ⟨e8, he8⟩⟩

/-- One run of the integrator only grows the catalog. -/
theorem grow_integrateRun (s : DB) (it : SrcRun) : Grow s (integrateRun s it) := by
  show Grow s (it.files.foldl (fileStep (runTable_getId false s it.host it.starttime).1)
    (it.links.foldl (linkStep (runTable_getId false s it.host it.starttime).1)
      (it.dirs.foldl (dirStep (runTable_getId false s it.host it.starttime).1)
        (runTable_updateEndtime
          (runTable_updateStatus false (runTable_getId false s it.host it.starttime).2
            (runTable_getId false s it.host it.starttime).1 it.status)
          (runTable_getId false s it.host it.starttime).1 it.endtime))))
  refine grow_trans (grow_open false s it.host it.starttime) ?_
  refine grow_trans (grow_updateStatus false (runTable_getId false s it.host it.starttime).2
    (runTable_getId false s it.host it.starttime).1 it.status) ?_
  refine grow_trans (grow_updateEnd
    (runTable_updateStatus false (runTable_getId false s it.host it.starttime).2
      (runTable_getId false s it.host it.starttime).1 it.status)
    (runTable_getId false s it.host it.starttime).1 it.endtime) ?_
  refine grow_trans (grow_foldl (dirStep (runTable_getId false s it.host it.starttime).1)
    (fun acc d => grow_dirGetId false acc _ d.filepath
      d.fileowner d.filegroup d.filemode d.filetime) it.dirs _) ?_
  refine grow_trans (grow_foldl (linkStep (runTable_getId false s it.host it.starttime).1)
    (fun acc l => grow_linkGetId false acc _ l.filepath l.destpath) it.links _) ?_
  exact grow_foldl (fileStep (runTable_getId false s it.host it.starttime).1)
    (fun acc f => grow_fileGetId false acc _ f.filepath f.fileowner
      f.filegroup f.filemode f.filesize f.filetime f.filesha) it.files _

/-- Integrating one source catalog only grows the destination. -/
theorem grow_integrateSource (s : DB) (runs : List SrcRun) :
    Grow s (integrateSource s runs) :=
  grow_foldl integrateRun (fun acc x => grow_integrateRun acc x) runs s

/-- Integration only grows the destination. -/
theorem grow_integrate (s : DB) (sources : List (List SrcRun)) :
    Grow s (integrate s sources) :=
  grow_foldl integrateSource (fun acc x => grow_integrateSource acc x) sources s

/-- In write mode with a non-NULL host id, the run get-or-create returns an id
under which the key is subsequently found. -/
theorem runRawGetId_post (rows : List RunRow) (n : Nat) (t : Int) :
    ∃ i, (runRawGetId false rows (some n) t).1 = some i ∧
      runFind (runRawGetId false rows (some n) t).2 (some n) t = some i := by
  cases hf : runFind rows (some n) t with
  | some i =>
    rw [runRawGetId_found false rows _ t i hf]
    exact ⟨i, rfl, hf⟩
  | none =>
    rw [runRawGetId_missRW rows _ t hf]
    exact ⟨runFreshId rows, rfl, runFind_appendFresh rows n t hf⟩

/-- SQL equality between equal non-NULL values holds. -/
theorem sqlEqO_some_refl {α : Type} [BEq α] [LawfulBEq α] (a : α) :
    sqlEqO (some a) (some a) = true := by
  simp [sqlEqO]

/-- Directory keys with resolved ids compare equal to themselves. -/
theorem dirKeyEq_refl (n p : Nat) (o g m tm : Int) :
    dirKeyEq ⟨some n, some p, o, g, m, tm⟩ ⟨some n, some p, o, g, m, tm⟩ = true := by
  simp [dirKeyEq, sqlEqO]

/-- Link keys with resolved ids compare equal to themselves. -/
theorem linkKeyEq_refl (n p d : Nat) :
    linkKeyEq ⟨some n, some p, some d⟩ ⟨some n, some p, some d⟩ = true := by
  simp [linkKeyEq, sqlEqO]

/-- File keys with resolved ids compare equal to themselves. -/
theorem fileKeyEq_refl (n p sh : Nat) (o g m sz tm : Int) :
    fileKeyEq ⟨some n, some p, o, g, m, sz, tm, some sh⟩
      ⟨some n, some p, o, g, m, sz, tm, some sh⟩ = true := by
  simp [fileKeyEq, sqlEqO]

/-- After `Open` in write mode: the returned run id is findable under the host
id now in the dictionary, and the Setup status exists. -/
theorem runTable_getId_post (s : DB) (h : String) (t : Int) :
    ∃ hid rid su,
      (runTable_getId false s h t).1 = some rid ∧
      tblFind strEq (runTable_getId false s h t).2.host h = some hid ∧
      runFind (runTable_getId false s h t).2.run (some hid) t = some rid ∧
      tblFind strEq (runTable_getId false s h t).2.status "Setup" = some su := by
  rw [runTable_getId_eq]
  obtain ⟨hid, ha1, ha2⟩ := tblGetId_post strEq s.host h (strEq_refl h)
  obtain ⟨su, hb1, hb2⟩ := tblGetId_post strEq s.status "Setup" (strEq_refl "Setup")
  rw [ha1]
  obtain ⟨rid, hr1, hr2⟩ := runRawGetId_post s.run hid t
  refine ⟨hid, rid, su, ?_, ?_, ?_, ?_⟩
  · dsimp only
    exact hr1
  · dsimp only
    exact ha2
  · dsimp only
    rw [runFind_map _ (fun r => updStatusRow_keys _ _ r)]
    exact hr2
  · dsimp only
    exact hb2

/-- `updateStatus` in write mode leaves the status string findable. -/
theorem runTable_updateStatus_post (s : DB) (rid : Option Nat) (st : String) :
    ∃ i, tblFind strEq (runTable_updateStatus false s rid st).status st = some i := by
  obtain ⟨i, h1, h2⟩ := tblGetId_post strEq s.status st (strEq_refl st)
  exact ⟨i, h2⟩

/-- After a directory record call in write mode, the path and the full
observation tuple are findable. -/
theorem directoryTable_getId_post (s : DB) (n : Nat) (path : String) (o g m tm : Int) :
    ∃ pid oid,
      tblFind strEq (directoryTable_getId false s (some n) path o g m tm).2.filepath path =
        some pid ∧
      tblFind dirKeyEq (directoryTable_getId false s (some n) path o g m tm).2.directory
        ⟨some n, some pid, o, g, m, tm⟩ = some oid := by
  rw [directoryTable_getId_eq]
  obtain ⟨pid, hp1, hp2⟩ := tblGetId_post strEq s.filepath path (strEq_refl path)
  rw [hp1]
  obtain ⟨oid, ho1, ho2⟩ := tblGetId_post dirKeyEq s.directory
    ⟨some n, some pid, o, g, m, tm⟩ (dirKeyEq_refl n pid o g m tm)
  refine ⟨pid, oid, ?_, ?_⟩
  · dsimp only
    exact hp2
  · dsimp only
    exact ho2

/-- After a link record call in write mode, both paths and the full tuple are
findable. -/
theorem linkTable_getId_post (s : DB) (n : Nat) (path dest : String) :
    ∃ pid did oid,
      tblFind strEq (linkTable_getId false s (some n) path dest).2.filepath path = some pid ∧
      tblFind strEq (linkTable_getId false s (some n) path dest).2.filepath dest = some did ∧
      tblFind linkKeyEq (linkTable_getId false s (some n) path dest).2.link
        ⟨some n, some pid, some did⟩ = some oid := by
  rw [linkTable_getId_eq]
  obtain ⟨pid, hp1, hp2⟩ := tblGetId_post strEq s.filepath path (strEq_refl path)
  obtain ⟨did, hd1, hd2⟩ := tblGetId_post strEq (tblGetId strEq false s.filepath path).2 dest
    (strEq_refl dest)
  have hp2b : tblFind strEq (tblGetId strEq false (tblGetId strEq false s.filepath path).2
      dest).2 path = some pid := by
    obtain ⟨e, he⟩ := tblGetId_ext strEq false (tblGetId strEq false s.filepath path).2 dest
    rw [he]
    exact tblFind_append _ _ _ _ _ hp2
  rw [hp1, hd1]
  obtain ⟨oid, ho1, ho2⟩ := tblGetId_post linkKeyEq s.link
    ⟨some n, some pid, some did⟩ (linkKeyEq_refl n pid did)
  refine ⟨pid, did, oid, ?_, ?_, ?_⟩
  · dsimp only
    exact hp2b
  · dsimp only
    exact hd2
  · dsimp only
    exact ho2

/-- After a file record call in write mode, the call returned the observation
id, and the path, hash and full tuple are findable. -/
theorem fileTable_getId_post (s : DB) (n : Nat) (path : String) (o g m sz tm : Int)
    (sha : String) :
    ∃ pid shid oid,
      (fileTable_getId false s (some n) path o g m sz tm sha).1 = some oid ∧
      tblFind strEq (fileTable_getId false s (some n) path o g m sz tm sha).2.filepath path =
        some pid ∧
      tblFind strEq (fileTable_getId false s (some n) path o g m sz tm sha).2.filesha sha =
        some shid ∧
      tblFind fileKeyEq (fileTable_getId false s (some n) path o g m sz tm sha).2.file
        ⟨some n, some pid, o, g, m, sz, tm, some shid⟩ = some oid := by
  rw [fileTable_getId_eq]
  obtain ⟨pid, hp1, hp2⟩ := tblGetId_post strEq s.filepath path (strEq_refl path)
  obtain ⟨shid, hs1, hs2⟩ := tblGetId_post strEq s.filesha sha (strEq_refl sha)
  rw [hp1, hs1]
  obtain ⟨oid, ho1, ho2⟩ := tblGetId_post fileKeyEq s.file
    ⟨some n, some pid, o, g, m, sz, tm, some shid⟩ (fileKeyEq_refl n pid shid o g m sz tm)
  refine ⟨pid, shid, oid, ?_, ?_, ?_, ?_⟩
  · dsimp only
    exact ho1
  · dsimp only
    exact hp2
  · dsimp only
    exact hs2
  · dsimp only
    exact ho2

/-- Everything one source run makes the integrator write is already present in
the catalog: the host, the run key, both status strings, and every observation
tuple under the resolved ids. -/
def Sat (s : DB) (it : SrcRun) : Prop :=
  ∃ hid rid su st,
    tblFind strEq s.host it.host = some hid ∧
    runFind s.run (some hid) it.starttime = some rid ∧
    tblFind strEq s.status "Setup" = some su ∧
    tblFind strEq s.status it.status = some st ∧
    (∀ d ∈ it.dirs, ∃ pid oid,
      tblFind strEq s.filepath d.filepath = some pid ∧
      tblFind dirKeyEq s.directory
        ⟨some rid, some pid, d.fileowner, d.filegroup, d.filemode, d.filetime⟩ = some oid) ∧
    (∀ l ∈ it.links, ∃ pid did oid,
      tblFind strEq s.filepath l.filepath = some pid ∧
      tblFind strEq s.filepath l.destpath = some did ∧
      tblFind linkKeyEq s.link ⟨some rid, some pid, some did⟩ = some oid) ∧
    (∀ f ∈ it.files, ∃ pid shid oid,
      tblFind strEq s.filepath f.filepath = some pid ∧
      tblFind strEq s.filesha f.filesha = some shid ∧
      tblFind fileKeyEq s.file
        ⟨some rid, some pid, f.fileowner, f.filegroup, f.filemode, f.filesize,
          f.filetime, some shid⟩ = some oid)

/-- A successful run lookup survives catalog growth. -/
theorem runFind_grow {s t : DB} (g : Grow s t) {hid : Option Nat} {tm : Int} {i : Nat}
    (h : runFind s.run hid tm = some i) : runFind t.run hid tm = some i := by
  rw [runFind_eq_K] at h ⊢
  obtain ⟨e, he⟩ := g.run
  rw [he]
  exact runFindK_append _ _ _ _ _ h

/-- Saturation survives catalog growth, with the same resolved ids. -/
theorem sat_grow {s t : DB} (g : Grow s t) {it : SrcRun} (hs : Sat s it) : Sat t it := by
  obtain ⟨hid, rid, su, st, h1, h2, h3, h4, h5, h6, h7⟩ := hs
  obtain ⟨eS, heS⟩ := g.status
  obtain ⟨eH, heH⟩ := g.host
  obtain ⟨eSha, heSha⟩ := g.filesha
  obtain ⟨eP, heP⟩ := g.filepath
  obtain ⟨eD, heD⟩ := g.directory
  obtain ⟨eL, heL⟩ := g.link
  obtain ⟨eF, heF⟩ := g.file
  refine ⟨hid, rid, su, st, ?_, runFind_grow g h2, ?_, ?_, ?_, ?_, ?_⟩
  · rw [heH]; exact tblFind_append _ _ _ _ _ h1
  · rw [heS]; exact tblFind_append _ _ _ _ _ h3
  · rw [heS]; exact tblFind_append _ _ _ _ _ h4
  · intro d hd
    obtain ⟨pid, oid, hp, ho⟩ := h5 d hd
    exact ⟨pid, oid, by rw [heP]; exact tblFind_append _ _ _ _ _ hp,
      by rw [heD]; exact tblFind_append _ _ _ _ _ ho⟩
  · intro l hl
    obtain ⟨pid, did, oid, hp, hd2, ho⟩ := h6 l hl
    exact ⟨pid, did, oid, by rw [heP]; exact tblFind_append _ _ _ _ _ hp,
      by rw [heP]; exact tblFind_append _ _ _ _ _ hd2,
      by rw [heL]; exact tblFind_append _ _ _ _ _ ho⟩
  · intro f hf
    obtain ⟨pid, shid, oid, hp, hsh, ho⟩ := h7 f hf
    exact ⟨pid, shid, oid, by rw [heP]; exact tblFind_append _ _ _ _ _ hp,
      by rw [heSha]; exact tblFind_append _ _ _ _ _ hsh,
      by rw [heF]; exact tblFind_append _ _ _ _ _ ho⟩

/-- After the directory-copy loop, every copied directory tuple is findable. -/
theorem dirsFold_post (n : Nat) (dlist : List SrcDir) :
    ∀ s0 : DB, ∀ d ∈ dlist,
      ∃ pid oid,
        tblFind strEq (dlist.foldl (dirStep (some n)) s0).filepath d.filepath = some pid ∧
        tblFind dirKeyEq (dlist.foldl (dirStep (some n)) s0).directory
          ⟨some n, some pid, d.fileowner, d.filegroup, d.filemode, d.filetime⟩ = some oid := by
  induction dlist with
  | nil => intro s0 d hd; cases hd
  | cons a as ih =>
    intro s0 d hd
    rw [List.foldl_cons]
    cases hd with
    | head =>
      obtain ⟨pid, oid, h1, h2⟩ := directoryTable_getId_post s0 n a.filepath a.fileowner
        a.filegroup a.filemode a.filetime
      have g : Grow (dirStep (some n) s0 a)
          (as.foldl (dirStep (some n)) (dirStep (some n) s0 a)) :=
        grow_foldl (dirStep (some n)) (fun acc d2 => grow_dirGetId false acc (some n)
          d2.filepath d2.fileowner d2.filegroup d2.filemode d2.filetime) as
          (dirStep (some n) s0 a)
      obtain ⟨e1, he1⟩ := g.filepath
      obtain ⟨e2, he2⟩ := g.directory
      refine ⟨pid, oid, ?_, ?_⟩
      · rw [he1]; exact tblFind_append _ _ _ _ _ h1
      · rw [he2]; exact tblFind_append _ _ _ _ _ h2
    | tail _ hmem => exact ih (dirStep (some n) s0 a) d hmem

/-- After the link-copy loop, every copied link tuple is findable. -/
theorem linksFold_post (n : Nat) (llist : List SrcLink) :
    ∀ s0 : DB, ∀ l ∈ llist,
      ∃ pid did oid,
        tblFind strEq (llist.foldl (linkStep (some n)) s0).filepath l.filepath = some pid ∧
        tblFind strEq (llist.foldl (linkStep (some n)) s0).filepath l.destpath = some did ∧
        tblFind linkKeyEq (llist.foldl (linkStep (some n)) s0).link
          ⟨some n, some pid, some did⟩ = some oid := by
  induction llist with
  | nil => intro s0 l hl; cases hl
  | cons a as ih =>
    intro s0 l hl
    rw [List.foldl_cons]
    cases hl with
    | head =>
      obtain ⟨pid, did, oid, h1, h2, h3⟩ := linkTable_getId_post s0 n a.filepath a.destpath
      have g : Grow (linkStep (some n) s0 a)
          (as.foldl (linkStep (some n)) (linkStep (some n) s0 a)) :=
        grow_foldl (linkStep (some n)) (fun acc l2 => grow_linkGetId false acc (some n)
          l2.filepath l2.destpath) as (linkStep (some n) s0 a)
      obtain ⟨e1, he1⟩ := g.filepath
      obtain ⟨e2, he2⟩ := g.link
      refine ⟨pid, did, oid, ?_, ?_, ?_⟩
      · rw [he1]; exact tblFind_append _ _ _ _ _ h1
      · rw [he1]; exact tblFind_append _ _ _ _ _ h2
      · rw [he2]; exact tblFind_append _ _ _ _ _ h3
    | tail _ hmem => exact ih (linkStep (some n) s0 a) l hmem

/-- After the file-copy loop, every copied file tuple is findable. -/
theorem filesFold_post (n : Nat) (flist : List SrcFile) :
    ∀ s0 : DB, ∀ f ∈ flist,
      ∃ pid shid oid,
        tblFind strEq (flist.foldl (fileStep (some n)) s0).filepath f.filepath = some pid ∧
        tblFind strEq (flist.foldl (fileStep (some n)) s0).filesha f.filesha = some shid ∧
        tblFind fileKeyEq (flist.foldl (fileStep (some n)) s0).file
          ⟨some n, some pid, f.fileowner, f.filegroup, f.filemode, f.filesize,
            f.filetime, some shid⟩ = some oid := by
  induction flist with
  | nil => intro s0 f hf; cases hf
  | cons a as ih =>
    intro s0 f hf
    rw [List.foldl_cons]
    cases hf with
    | head =>
      obtain ⟨pid, shid, oid, _, h1, h2, h3⟩ := fileTable_getId_post s0 n a.filepath
        a.fileowner a.filegroup a.filemode a.filesize a.filetime a.filesha
      have g : Grow (fileStep (some n) s0 a)
          (as.foldl (fileStep (some n)) (fileStep (some n) s0 a)) :=
        grow_foldl (fileStep (some n)) (fun acc f2 => grow_fileGetId false acc (some n)
          f2.filepath f2.fileowner f2.filegroup f2.filemode f2.filesize f2.filetime
          f2.filesha) as (fileStep (some n) s0 a)
      obtain ⟨e1, he1⟩ := g.filepath
      obtain ⟨e2, he2⟩ := g.filesha
      obtain ⟨e3, he3⟩ := g.file
      refine ⟨pid, shid, oid, ?_, ?_, ?_⟩
      · rw [he1]; exact tblFind_append _ _ _ _ _ h1
      · rw [he2]; exact tblFind_append _ _ _ _ _ h2
      · rw [he3]; exact tblFind_append _ _ _ _ _ h3
    | tail _ hmem => exact ih (fileStep (some n) s0 a) f hmem

/-- After the integrator has replayed a source run, everything that run makes
it write is present in the destination. -/
theorem sat_establish (s : DB) (it : SrcRun) : Sat (integrateRun s it) it := by
  obtain ⟨hid, rid, su, hop1, hop2, hop3, hop4⟩ := runTable_getId_post s it.host it.starttime
  obtain ⟨st, hst⟩ := runTable_updateStatus_post
    (runTable_getId false s it.host it.starttime).2 (some rid) it.status
  have hF : integrateRun s it =
      it.files.foldl (fileStep (some rid))
        (it.links.foldl (linkStep (some rid))
          (it.dirs.foldl (dirStep (some rid))
            (runTable_updateEndtime
              (runTable_updateStatus false (runTable_getId false s it.host it.starttime).2
                (some rid) it.status)
              (some rid) it.endtime))) := by
    show it.files.foldl (fileStep (runTable_getId false s it.host it.starttime).1)
      (it.links.foldl (linkStep (runTable_getId false s it.host it.starttime).1)
        (it.dirs.foldl (dirStep (runTable_getId false s it.host it.starttime).1)
          (runTable_updateEndtime
            (runTable_updateStatus false (runTable_getId false s it.host it.starttime).2
              (runTable_getId false s it.host it.starttime).1 it.status)
            (runTable_getId false s it.host it.starttime).1 it.endtime))) = _
    rw [hop1]
  rw [hF]
  set S1 := runTable_updateStatus false (runTable_getId false s it.host it.starttime).2
    (some rid) it.status with hS1
  set S2 := runTable_updateEndtime S1 (some rid) it.endtime with hS2
  set F3 := it.dirs.foldl (dirStep (some rid)) S2 with hF3
  set F4 := it.links.foldl (linkStep (some rid)) F3 with hF4
  set F5 := it.files.foldl (fileStep (some rid)) F4 with hF5
  have g1 : Grow (runTable_getId false s it.host it.starttime).2 S1 :=
    grow_updateStatus false (runTable_getId false s it.host it.starttime).2
      (some rid) it.status
  have g2 : Grow S1 S2 := grow_updateEnd S1 (some rid) it.endtime
  have g3 : Grow S2 F3 :=
    grow_foldl (dirStep (some rid)) (fun acc d2 => grow_dirGetId false acc (some rid)
      d2.filepath d2.fileowner d2.filegroup d2.filemode d2.filetime) it.dirs S2
  have g4 : Grow F3 F4 :=
    grow_foldl (linkStep (some rid)) (fun acc l2 => grow_linkGetId false acc (some rid)
      l2.filepath l2.destpath) it.links F3
  have g5 : Grow F4 F5 :=
    grow_foldl (fileStep (some rid)) (fun acc f2 => grow_fileGetId false acc (some rid)
      f2.filepath f2.fileowner f2.filegroup f2.filemode f2.filesize f2.filetime
      f2.filesha) it.files F4
  have gAll1 : Grow (runTable_getId false s it.host it.starttime).2 F5 :=
    grow_trans g1 (grow_trans g2 (grow_trans g3 (grow_trans g4 g5)))
  have gAllS1 : Grow S1 F5 := grow_trans g2 (grow_trans g3 (grow_trans g4 g5))
  have gF3 : Grow F3 F5 := grow_trans g4 g5
  obtain ⟨eH, heH⟩ := gAll1.host
  obtain ⟨eS, heS⟩ := gAll1.status
  obtain ⟨eS2, heS2⟩ := gAllS1.status
  refine ⟨hid, rid, su, st, ?_, runFind_grow gAll1 hop3, ?_, ?_, ?_, ?_, ?_⟩
  · rw [heH]; exact tblFind_append _ _ _ _ _ hop2
  · rw [heS]; exact tblFind_append _ _ _ _ _ hop4
  · rw [heS2]; exact tblFind_append _ _ _ _ _ hst
  · intro d hd
    obtain ⟨pid, oid, hp, ho⟩ := dirsFold_post rid it.dirs S2 d hd
    obtain ⟨e1, he1⟩ := gF3.filepath
    obtain ⟨e2, he2⟩ := gF3.directory
    exact ⟨pid, oid, by rw [he1]; exact tblFind_append _ _ _ _ _ hp,
      by rw [he2]; exact tblFind_append _ _ _ _ _ ho⟩
  · intro l hl
    obtain ⟨pid, did, oid, hp, hd2, ho⟩ := linksFold_post rid it.links F3 l hl
    obtain ⟨e1, he1⟩ := g5.filepath
    obtain ⟨e2, he2⟩ := g5.link
    exact ⟨pid, did, oid, by rw [he1]; exact tblFind_append _ _ _ _ _ hp,
      by rw [he1]; exact tblFind_append _ _ _ _ _ hd2,
      by rw [he2]; exact tblFind_append _ _ _ _ _ ho⟩
  · intro f hf
    exact filesFold_post rid it.files F4 f hf

/-- Every run of an integrated source is saturated in the result. -/
theorem integrateSource_sat (runs : List SrcRun) :
    ∀ s : DB, ∀ it ∈ runs, Sat (integrateSource s runs) it := by
  induction runs with
  | nil => intro s it h; cases h
  | cons a as ih =>
    intro s it h
    have hstep : integrateSource s (a :: as) = integrateSource (integrateRun s a) as := by
      unfold integrateSource
      rw [List.foldl_cons]
    rw [hstep]
    cases h with
    | head => exact sat_grow (grow_integrateSource (integrateRun s a) as) (sat_establish s a)
    | tail _ hmem => exact ih (integrateRun s a) it hmem

/-- Every run of every integrated source is saturated in the result. -/
theorem integrate_satAll (sources : List (List SrcRun)) :
    ∀ s : DB, ∀ src ∈ sources, ∀ it ∈ src, Sat (integrate s sources) it := by
  induction sources with
  | nil => intro s src h; cases h
  | cons a as ih =>
    intro s src h it hit
    have hstep : integrate s (a :: as) = integrate (integrateSource s a) as := by
      unfold integrate
      rw [List.foldl_cons]
    rw [hstep]
    cases h with
    | head =>
      exact sat_grow (grow_integrate (integrateSource s a) as)
        (integrateSource_sat a s it hit)
    | tail _ hmem => exact ih (integrateSource s a) src hmem it hit

/-- On a hit, the status dictionary wrapper changes nothing. -/
theorem statusTable_getId_found (ro : Bool) (s : DB) (v : String) (i : Nat)
    (h : tblFind strEq s.status v = some i) : statusTable_getId ro s v = (some i, s) := by
  unfold statusTable_getId
  rw [tblGetId_found strEq ro s.status v i h]

/-- On a hit, the host dictionary wrapper changes nothing. -/
theorem hostTable_getId_found (ro : Bool) (s : DB) (v : String) (i : Nat)
    (h : tblFind strEq s.host v = some i) : hostTable_getId ro s v = (some i, s) := by
  unfold hostTable_getId
  rw [tblGetId_found strEq ro s.host v i h]

/-- On a hit, the hash dictionary wrapper changes nothing. -/
theorem fileshaTable_getId_found (ro : Bool) (s : DB) (v : String) (i : Nat)
    (h : tblFind strEq s.filesha v = some i) : fileshaTable_getId ro s v = (some i, s) := by
  unfold fileshaTable_getId
  rw [tblGetId_found strEq ro s.filesha v i h]

/-- On a hit, the path dictionary wrapper changes nothing. -/
theorem filepathTable_getId_found (ro : Bool) (s : DB) (v : String) (i : Nat)
    (h : tblFind strEq s.filepath v = some i) : filepathTable_getId ro s v = (some i, s) := by
  unfold filepathTable_getId
  rw [tblGetId_found strEq ro s.filepath v i h]

/-- When path and tuple are already present, a directory record call returns
the existing observation id and changes nothing. -/
theorem directoryTable_getId_noop (ro : Bool) (s : DB) (rid : Option Nat) (path : String)
    (o g m tm : Int) (pid oid : Nat)
    (hp : tblFind strEq s.filepath path = some pid)
    (ho : tblFind dirKeyEq s.directory ⟨rid, some pid, o, g, m, tm⟩ = some oid) :
    directoryTable_getId ro s rid path o g m tm = (some oid, s) := by
  rw [directoryTable_getId_eq, tblGetId_found strEq ro s.filepath path pid hp]
  dsimp only
  rw [tblGetId_found dirKeyEq ro s.directory _ oid ho]

/-- When both paths and the tuple are already present, a link record call
returns the existing observation id and changes nothing. -/
theorem linkTable_getId_noop (ro : Bool) (s : DB) (rid : Option Nat) (path dest : String)
    (pid did oid : Nat)
    (hp : tblFind strEq s.filepath path = some pid)
    (hd : tblFind strEq s.filepath dest = some did)
    (ho : tblFind linkKeyEq s.link ⟨rid, some pid, some did⟩ = some oid) :
    linkTable_getId ro s rid path dest = (some oid, s) := by
  rw [linkTable_getId_eq, tblGetId_found strEq ro s.filepath path pid hp]
  dsimp only
  rw [tblGetId_found strEq ro s.filepath dest did hd]
  dsimp only
  rw [tblGetId_found linkKeyEq ro s.link _ oid ho]

/-- When path, hash and tuple are already present, a file record call returns
the existing observation id and changes nothing. -/
theorem fileTable_getId_noop (ro : Bool) (s : DB) (rid : Option Nat) (path : String)
    (o g m sz tm : Int) (sha : String) (pid shid oid : Nat)
    (hp : tblFind strEq s.filepath path = some pid)
    (hsh : tblFind strEq s.filesha sha = some shid)
    (ho : tblFind fileKeyEq s.file ⟨rid, some pid, o, g, m, sz, tm, some shid⟩ = some oid) :
    fileTable_getId ro s rid path o g m sz tm sha = (some oid, s) := by
  rw [fileTable_getId_eq, tblGetId_found strEq ro s.filepath path pid hp,
    tblGetId_found strEq ro s.filesha sha shid hsh]
  dsimp only
  rw [tblGetId_found fileKeyEq ro s.file _ oid ho]

/-- On a status hit, `updateStatus` only rewrites the run rows. -/
theorem runTable_updateStatus_found (ro : Bool) (s : DB) (rid : Option Nat) (st : String)
    (i : Nat) (h : tblFind strEq s.status st = some i) :
    runTable_updateStatus ro s rid st =
      { s with run := s.run.map (updStatusRow rid (some i)) } := by
  unfold runTable_updateStatus
  rw [statusTable_getId_found ro s st i h]

/-- When host, run and Setup status are already present, `Open` returns the
existing run id and only rewrites the run statuses. -/
theorem runTable_getId_found_eq (s : DB) (h : String) (t : Int) (hid rid su : Nat)
    (hh : tblFind strEq s.host h = some hid)
    (hr : runFind s.run (some hid) t = some rid)
    (hsu : tblFind strEq s.status "Setup" = some su) :
    runTable_getId false s h t =
      (some rid, { s with run := s.run.map (updStatusRow (some rid) (some su)) }) := by
  rw [runTable_getId_eq, tblGetId_found strEq false s.host h hid hh]
  dsimp only
  rw [runRawGetId_found false s.run (some hid) t rid hr]
  dsimp only
  rw [tblGetId_found strEq false s.status "Setup" su hsu]

/-- A left fold whose every step fixes the state fixes the state. -/
theorem foldl_fixed {β : Type} (f : DB → β → DB) (s : DB) (l : List β)
    (h : ∀ x ∈ l, f s x = s) : l.foldl f s = s := by
  induction l with
  | nil => rfl
  | cons a as ih =>
    rw [List.foldl_cons, h a (by simp)]
    exact ih (fun x hx => h x (by simp [hx]))

/-- A directory-copy loop over already-present tuples changes nothing. -/
theorem dirsFold_noop (n : Nat) (dlist : List SrcDir) (t : DB)
    (h : ∀ d ∈ dlist, ∃ pid oid, tblFind strEq t.filepath d.filepath = some pid ∧
      tblFind dirKeyEq t.directory
        ⟨some n, some pid, d.fileowner, d.filegroup, d.filemode, d.filetime⟩ = some oid) :
    dlist.foldl (dirStep (some n)) t = t :=
  foldl_fixed _ _ _ (fun d hd => by
    obtain ⟨pid, oid, hp, ho⟩ := h d hd
    show (directoryTable_getId false t (some n) d.filepath d.fileowner d.filegroup
      d.filemode d.filetime).2 = t
    rw [directoryTable_getId_noop false t (some n) d.filepath d.fileowner d.filegroup
      d.filemode d.filetime pid oid hp ho])

/-- A link-copy loop over already-present tuples changes nothing. -/
theorem linksFold_noop (n : Nat) (llist : List SrcLink) (t : DB)
    (h : ∀ l ∈ llist, ∃ pid did oid, tblFind strEq t.filepath l.filepath = some pid ∧
      tblFind strEq t.filepath l.destpath = some did ∧
      tblFind linkKeyEq t.link ⟨some n, some pid, some did⟩ = some oid) :
    llist.foldl (linkStep (some n)) t = t :=
  foldl_fixed _ _ _ (fun l hl => by
    obtain ⟨pid, did, oid, hp, hd, ho⟩ := h l hl
    show (linkTable_getId false t (some n) l.filepath l.destpath).2 = t
    rw [linkTable_getId_noop false t (some n) l.filepath l.destpath pid did oid hp hd ho])

/-- A file-copy loop over already-present tuples changes nothing. -/
theorem filesFold_noop (n : Nat) (flist : List SrcFile) (t : DB)
    (h : ∀ f ∈ flist, ∃ pid shid oid, tblFind strEq t.filepath f.filepath = some pid ∧
      tblFind strEq t.filesha f.filesha = some shid ∧
      tblFind fileKeyEq t.file ⟨some n, some pid, f.fileowner, f.filegroup, f.filemode,
        f.filesize, f.filetime, some shid⟩ = some oid) :
    flist.foldl (fileStep (some n)) t = t :=
  foldl_fixed _ _ _ (fun f hf => by
    obtain ⟨pid, shid, oid, hp, hsh, ho⟩ := h f hf
    show (fileTable_getId false t (some n) f.filepath f.fileowner f.filegroup f.filemode
      f.filesize f.filetime f.filesha).2 = t
    rw [fileTable_getId_noop false t (some n) f.filepath f.fileowner f.filegroup
      f.filemode f.filesize f.filetime f.filesha pid shid oid hp hsh ho])

/-- On a saturated source run, replaying it inserts nothing: the catalog is
unchanged except run statuses and endtimes, and the run keys are preserved. -/
theorem integrateRun_noInsert (s : DB) (it : SrcRun) (hs : Sat s it) :
    ∃ l : List RunRow, integrateRun s it = { s with run := l } ∧
      l.map runKeyOf = s.run.map runKeyOf := by
  obtain ⟨hid, rid, su, st, h1, h2, h3, h4, h5, h6, h7⟩ := hs
  have hopen := runTable_getId_found_eq s it.host it.starttime hid rid su h1 h2 h3
  set T3v : DB := { s with run := ((s.run.map (updStatusRow (some rid) (some su))).map
      (updStatusRow (some rid) (some st))).map (updEndRow (some rid) it.endtime) } with hT3v
  have hT3 : integrateRun s it =
      it.files.foldl (fileStep (some rid)) (it.links.foldl (linkStep (some rid))
        (it.dirs.foldl (dirStep (some rid)) T3v)) := by
    show it.files.foldl (fileStep (runTable_getId false s it.host it.starttime).1)
      (it.links.foldl (linkStep (runTable_getId false s it.host it.starttime).1)
        (it.dirs.foldl (dirStep (runTable_getId false s it.host it.starttime).1)
          (runTable_updateEndtime
            (runTable_updateStatus false (runTable_getId false s it.host it.starttime).2
              (runTable_getId false s it.host it.starttime).1 it.status)
            (runTable_getId false s it.host it.starttime).1 it.endtime))) = _
    rw [hopen]
    dsimp only
    rw [runTable_updateStatus_found false
      { s with run := s.run.map (updStatusRow (some rid) (some su)) } (some rid)
      it.status st h4]
    rfl
  have hdirs : it.dirs.foldl (dirStep (some rid)) T3v = T3v :=
    dirsFold_noop rid it.dirs T3v h5
  have hlinks : it.links.foldl (linkStep (some rid)) T3v = T3v :=
    linksFold_noop rid it.links T3v h6
  have hfiles : it.files.foldl (fileStep (some rid)) T3v = T3v :=
    filesFold_noop rid it.files T3v h7
  refine ⟨((s.run.map (updStatusRow (some rid) (some su))).map
      (updStatusRow (some rid) (some st))).map (updEndRow (some rid) it.endtime), ?_, ?_⟩
  · rw [hT3, hdirs, hlinks, hfiles]
  · rw [runKeys_map_updEnd, runKeys_map_updStatus, runKeys_map_updStatus]

/-- Saturation only depends on the key-visible part of the state. -/
theorem sat_transport (s : DB) (l : List RunRow)
    (hk : l.map runKeyOf = s.run.map runKeyOf) (it : SrcRun) (hs : Sat s it) :
    Sat { s with run := l } it := by
  obtain ⟨hid, rid, su, st, h1, h2, h3, h4, h5, h6, h7⟩ := hs
  refine ⟨hid, rid, su, st, h1, ?_, h3, h4, h5, h6, h7⟩
  show runFind l (some hid) it.starttime = some rid
  rw [runFind_eq_K, hk, ← runFind_eq_K]
  exact h2

/-- Replaying one already-saturated source keeps every table except the run
rows, whose keys are preserved. -/
theorem integrateSource_noInsert_aux (runs : List SrcRun) :
    ∀ (s : DB) (l0 : List RunRow), l0.map runKeyOf = s.run.map runKeyOf →
      (∀ it ∈ runs, Sat s it) →
      ∃ l, integrateSource { s with run := l0 } runs = { s with run := l } ∧
        l.map runKeyOf = s.run.map runKeyOf := by
  induction runs with
  | nil => intro s l0 hk0 _; exact ⟨l0, rfl, hk0⟩
  | cons a as ih =>
    intro s l0 hk0 hsat
    obtain ⟨l1, he1, hk1⟩ := integrateRun_noInsert { s with run := l0 } a
      (sat_transport s l0 hk0 a (hsat a (by simp)))
    have hk1b : l1.map runKeyOf = s.run.map runKeyOf := hk1.trans hk0
    obtain ⟨l2, he2, hk2⟩ := ih s l1 hk1b (fun it hmem => hsat it (by simp [hmem]))
    refine ⟨l2, ?_, hk2⟩
    calc integrateSource { s with run := l0 } (a :: as)
        = integrateSource (integrateRun { s with run := l0 } a) as := by
          unfold integrateSource
          rw [List.foldl_cons]
      _ = integrateSource { s with run := l1 } as := by rw [he1]
      _ = { s with run := l2 } := he2

/-- Replaying already-saturated sources keeps every table except the run rows,
whose keys are preserved. -/
theorem integrate_noInsert_aux (sources : List (List SrcRun)) :
    ∀ (s : DB) (l0 : List RunRow), l0.map runKeyOf = s.run.map runKeyOf →
      (∀ src ∈ sources, ∀ it ∈ src, Sat s it) →
      ∃ l, integrate { s with run := l0 } sources = { s with run := l } ∧
        l.map runKeyOf = s.run.map runKeyOf := by
  induction sources with
  | nil => intro s l0 hk0 _; exact ⟨l0, rfl, hk0⟩
  | cons a as ih =>
    intro s l0 hk0 hsat
    obtain ⟨l1, he1, hk1⟩ := integrateSource_noInsert_aux a s l0 hk0
      (fun it hmem => hsat a (by simp) it hmem)
    obtain ⟨l2, he2, hk2⟩ := ih s l1 hk1 (fun src hmem it hit => hsat src (by simp [hmem]) it hit)
    refine ⟨l2, ?_, hk2⟩
    calc integrate { s with run := l0 } (a :: as)
        = integrate (integrateSource { s with run := l0 } a) as := by
          unfold integrate
          rw [List.foldl_cons]
      _ = integrate { s with run := l1 } as := by rw [he1]
      _ = { s with run := l2 } := he2

/-- Integrating sources whose content is already saturated inserts nothing. -/
theorem integrate_noInsert (s : DB) (sources : List (List SrcRun))
    (hs : ∀ src ∈ sources, ∀ it ∈ src, Sat s it) :
    ∃ l, integrate s sources = { s with run := l } ∧
      l.map runKeyOf = s.run.map runKeyOf := by
  obtain ⟨l, he, hk⟩ := integrate_noInsert_aux sources s s.run rfl hs
  exact ⟨l, he, hk⟩

/-- Row counts add over appended tables. -/
theorem countKey_append {α : Type} (eq : α → α → Bool) (rows ext : Tbl α) (v : α) :
    countKey eq (rows ++ ext) v = countKey eq rows v + countKey eq ext v := by
  simp [countKey, List.filter_append]

/-- A key that is not found has no rows. -/
theorem countKey_of_none {α : Type} (eq : α → α → Bool) (rows : Tbl α) (v : α)
    (h : tblFind eq rows v = none) : countKey eq rows v = 0 := by
  unfold tblFind at h
  cases hf : rows.find? (fun r => eq r.2 v) with
  | some r => rw [hf] at h; simp at h
  | none =>
    unfold countKey
    rw [List.filter_eq_nil_iff.mpr (by
      intro a ha
      have := List.find?_eq_none.mp hf a ha
      simpa using this)]
    rfl

/-- A found key has at least one row. -/
theorem countKey_pos_of_found {α : Type} (eq : α → α → Bool) (rows : Tbl α) (v : α)
    (i : Nat) (h : tblFind eq rows v = some i) : 1 ≤ countKey eq rows v := by
  unfold tblFind at h
  cases hf : rows.find? (fun r => eq r.2 v) with
  | none => rw [hf] at h; simp at h
  | some r =>
    have hpr : (fun r => eq r.2 v) r = true := @List.find?_some _ (fun r => eq r.2 v) r rows hf
    have hm : r ∈ rows.filter (fun r => eq r.2 v) :=
      List.mem_filter.mpr ⟨List.mem_of_find?_eq_some hf, hpr⟩
    have := List.length_pos.mpr (List.ne_nil_of_mem hm)
    unfold countKey
    exact this

/-- `ORDER BY starttime DESC LIMIT 1`: the selected candidate is a maximal one,
and one is selected exactly when candidates exist. -/
theorem bestRow_spec (l : List (Int × String)) :
    (l = [] ∧ bestRow l = none) ∨
      (∃ t h, bestRow l = some (t, h) ∧ (t, h) ∈ l ∧ ∀ x ∈ l, x.1 ≤ t) := by
  induction l with
  | nil => exact Or.inl ⟨rfl, rfl⟩
  | cons x xs ih =>
    right
    cases ih with
    | inl hnil =>
      obtain ⟨h1, h2⟩ := hnil
      subst h1
      refine ⟨x.1, x.2, ?_, by simp, by simp⟩
      show bestRow [x] = some (x.1, x.2)
      simp [bestRow]
    | inr hbig =>
      obtain ⟨t, h, hb, hm, hbound⟩ := hbig
      by_cases hle : t ≤ x.1
      · refine ⟨x.1, x.2, ?_, by simp, ?_⟩
        · show bestRow (x :: xs) = some (x.1, x.2)
          unfold bestRow
          rw [hb]
          simp [hle]
        · intro y hy
          cases List.mem_cons.mp hy with
          | inl hyx => rw [hyx]
          | inr hyxs => exact le_trans (hbound y hyxs) hle
      · refine ⟨t, h, ?_, by simp [hm], ?_⟩
        · show bestRow (x :: xs) = some (t, h)
          unfold bestRow
          rw [hb]
          simp [hle]
        · intro y hy
          cases List.mem_cons.mp hy with
          | inl hyx => rw [hyx]; exact le_of_lt (lt_of_not_le hle)
          | inr hyxs => exact hbound y hyxs

/-- Membership through the insertion step of the sort. -/
theorem insertKey_mem {α : Type} (key : α → Int) (x : α) (l : List α) (y : α) :
    y ∈ insertKey key x l ↔ y = x ∨ y ∈ l := by
  induction l with
  | nil => simp [insertKey]
  | cons a as ih =>
    unfold insertKey
    by_cases h : key x ≤ key a
    · simp [h]
    · simp only [h, if_false, List.mem_cons, ih]
      tauto

/-- Membership is preserved by the sort. -/
theorem sortKey_mem {α : Type} (key : α → Int) (l : List α) (y : α) :
    y ∈ sortKey key l ↔ y ∈ l := by
  induction l with
  | nil => simp [sortKey]
  | cons a as ih =>
    unfold sortKey
    rw [insertKey_mem, ih]
    simp

/-- Inserting keeps the list sorted. -/
theorem insertKey_pairwise {α : Type} (key : α → Int) (x : α) (l : List α)
    (h : List.Pairwise (fun a b => key a ≤ key b) l) :
    List.Pairwise (fun a b => key a ≤ key b) (insertKey key x l) := by
  induction l with
  | nil => simp [insertKey]
  | cons a as ih =>
    unfold insertKey
    by_cases hle : key x ≤ key a
    · rw [if_pos hle]
      refine List.Pairwise.cons ?_ h
      intro b hb
      cases List.mem_cons.mp hb with
      | inl hba => rw [hba]; exact hle
      | inr hbas => exact le_trans hle (List.rel_of_pairwise_cons h hbas)
    · rw [if_neg hle]
      refine List.Pairwise.cons ?_ (ih (List.Pairwise.sublist (List.sublist_cons_self a as) h))
      intro b hb
      rcases (insertKey_mem key x as b).mp hb with hbx | hbas
      · rw [hbx]; exact le_of_lt (lt_of_not_le hle)
      · exact List.rel_of_pairwise_cons h hbas

/-- The sort produces an ascending list. -/
theorem sortKey_pairwise {α : Type} (key : α → Int) (l : List α) :
    List.Pairwise (fun a b => key a ≤ key b) (sortKey key l) := by
  induction l with
  | nil => simp [sortKey]
  | cons a as ih => exact insertKey_pairwise key a (sortKey key as) ih

/-- Recording the same file tuple twice in write mode returns the same
observation id and leaves the catalog as the first call left it. -/
theorem fileTable_getId_idem (s : DB) (n : Nat) (path : String) (o g m sz tm : Int)
    (sha : String) :
    fileTable_getId false (fileTable_getId false s (some n) path o g m sz tm sha).2
      (some n) path o g m sz tm sha =
      fileTable_getId false s (some n) path o g m sz tm sha := by
  obtain ⟨pid, shid, oid, hr, hp, hsh, ho⟩ := fileTable_getId_post s n path o g m sz tm sha
  rw [fileTable_getId_noop false (fileTable_getId false s (some n) path o g m sz tm sha).2
    (some n) path o g m sz tm sha pid shid oid hp hsh ho]
  rw [← hr]

/-- A bare `%` matches everything. -/
theorem likeChars_pctOnly (ts : List Char) : likeChars ['%'] ts = true := by
  cases ts with
  | nil => decide
  | cons c cs =>
    show likeChars ['%'] (c :: cs) = true
    simp [likeChars, List.any_eq_true]

/-- A wildcard-free pattern followed by `%` matches exactly the texts it is a
case-insensitive prefix of. -/
theorem likeChars_wf (ns : List Char) :
    (∀ c ∈ ns, (c == '%') = false ∧ (c == '_') = false) →
    ∀ ts, likeChars (ns ++ ['%']) ts = charsStartWithCI ns ts := by
  induction ns with
  | nil =>
    intro _ ts
    rw [List.nil_append, likeChars_pctOnly ts]
    simp [charsStartWithCI]
  | cons n ns2 ih =>
    intro hwf ts
    obtain ⟨h1, h2⟩ := hwf n (by simp)
    have ih2 := ih (fun c hc => hwf c (by simp [hc]))
    cases ts with
    | nil =>
      show likeChars (n :: (ns2 ++ ['%'])) [] = charsStartWithCI (n :: ns2) []
      simp [likeChars, charsStartWithCI, h1]
    | cons t ts2 =>
      show likeChars (n :: (ns2 ++ ['%'])) (t :: ts2) = charsStartWithCI (n :: ns2) (t :: ts2)
      simp [likeChars, charsStartWithCI, h1, h2, ih2 ts2]

/-- Matching a wildcard-free pattern plus `%` against every suffix is the
case-insensitive substring test. -/
theorem tailsAny_contains (t : List Char)
    (hwf : ∀ c ∈ t, (c == '%') = false ∧ (c == '_') = false) :
    ∀ ts, (ts.tails.any (fun suf => likeChars (t ++ ['%']) suf)) = charsContainsCI t ts := by
  intro ts
  induction ts with
  | nil =>
    show ([] : List Char).tails.any (fun suf => likeChars (t ++ ['%']) suf) =
      charsContainsCI t []
    show ([[]] : List (List Char)).any (fun suf => likeChars (t ++ ['%']) suf) =
      charsContainsCI t []
    simp only [List.any_cons, List.any_nil, Bool.or_false]
    rw [likeChars_wf t hwf []]
    cases t <;> simp [charsStartWithCI, charsContainsCI]
  | cons c cs ih =>
    show ((c :: cs).tails.any (fun suf => likeChars (t ++ ['%']) suf)) =
      charsContainsCI t (c :: cs)
    rw [List.tails_cons]
    simp only [List.any_cons]
    rw [likeChars_wf t hwf (c :: cs), ih]
    rfl

/-- For a wildcard-free term, the `%term%` LIKE pattern used by `search` is the
ASCII-case-insensitive substring test. -/
theorem likeStr_ci (term text : String) (hwf : wildcardFree term = true) :
    likeStr ("%" ++ term ++ "%") text = ciContains term text := by
  have hwf2 : ∀ c ∈ term.data, (c == '%') = false ∧ (c == '_') = false := by
    intro c hc
    have hx := (List.all_eq_true.mp hwf) c hc
    simp only [Bool.not_eq_eq_eq_not, Bool.not_true, Bool.or_eq_false_iff] at hx
    exact ⟨hx.1, hx.2⟩
  unfold likeStr ciContains
  have hd : ("%" ++ term ++ "%").data = '%' :: (term.data ++ ['%']) := by
    simp [String.data_append]
  rw [hd]
  show (text.data.tails.any (fun suf => likeChars (term.data ++ ['%']) suf)) =
    charsContainsCI term.data text.data
  exact tailsAny_contains term.data hwf2 text.data

/-- Claim C1: for every dictionary value and every identical observation tuple,
calling the get-or-create operation (`Table.getId` and its subclass overrides)
twice with the same arguments returns the same id both times and the table
holds exactly one row for that value; the second call creates no duplicate.
Stated for the generic dictionary operation (under the table invariant that
the value occurs at most once) and for the full `FileTable.getId` pipeline. -/
theorem claim1_getId_idempotent {α : Type} (eq : α → α → Bool) (rows : Tbl α) (v : α)
    (hrefl : eq v v = true) (huniq : countKey eq rows v ≤ 1) :
    (tblGetId eq false (tblGetId eq false rows v).2 v).1 = (tblGetId eq false rows v).1 ∧
    (tblGetId eq false (tblGetId eq false rows v).2 v).2 = (tblGetId eq false rows v).2 ∧
    (∃ i, (tblGetId eq false rows v).1 = some i) ∧
    countKey eq (tblGetId eq false rows v).2 v = 1 ∧
    (∀ (s : DB) (n : Nat) (path : String) (o g m sz tm : Int) (sha : String),
      fileTable_getId false (fileTable_getId false s (some n) path o g m sz tm sha).2
        (some n) path o g m sz tm sha =
        fileTable_getId false s (some n) path o g m sz tm sha) := by
  have hidem := tblGetId_idem eq false rows v hrefl
  refine ⟨by rw [hidem], by rw [hidem], tblGetId_false_some eq rows v, ?_,
    fun s n path o g m sz tm sha => fileTable_getId_idem s n path o g m sz tm sha⟩
  cases hf : tblFind eq rows v with
  | some i =>
    rw [tblGetId_found eq false rows v i hf]
    exact Nat.le_antisymm huniq (countKey_pos_of_found eq rows v i hf)
  | none =>
    rw [tblGetId_missRW eq rows v hf]
    show countKey eq (rows ++ [(freshId rows, v)]) v = 1
    rw [countKey_append, countKey_of_none eq rows v hf]
    simp [countKey, hrefl]

/-- Claim C1 witness at a concrete input. -/
theorem claim1_witness :
    (tblGetId strEq false (tblGetId strEq false ([] : Tbl String) "x").2 "x").1 =
      (tblGetId strEq false ([] : Tbl String) "x").1 ∧
    countKey strEq (tblGetId strEq false ([] : Tbl String) "x").2 "x" = 1 :=
  ⟨(claim1_getId_idempotent strEq [] "x" (by decide) (by decide)).1,
   (claim1_getId_idempotent strEq [] "x" (by decide) (by decide)).2.2.2.1⟩

/-- Claim C2: calling `Open` (`RunTable.getId`) twice with the same
`(host, startTime)` returns the same run id both times and creates no
duplicate run row (the second call leaves the catalog exactly as the first
left it); in write mode the returned id is the one found under the
`(host_id, starttime)` key. -/
theorem claim2_open_idempotent : ∀ (ro : Bool) (s : DB) (host : String) (t : Int),
    runTable_getId ro (runTable_getId ro s host t).2 host t = runTable_getId ro s host t ∧
    (ro = false → ∃ hid rid,
      tblFind strEq (runTable_getId ro s host t).2.host host = some hid ∧
      runFind (runTable_getId ro s host t).2.run (some hid) t = some rid ∧
      (runTable_getId ro s host t).1 = some rid) := by
  intro ro s host t
  refine ⟨runTable_getId_idem ro s host t, ?_⟩
  rintro rfl
  obtain ⟨hid, rid, su, h1, h2, h3, h4⟩ := runTable_getId_post s host t
  exact ⟨hid, rid, h2, h3, h1⟩

/-- Claim C4: re-running the integrator over the same sources into the same
destination inserts no new rows: every dictionary and observation table is
unchanged and the run table keeps the same number of rows. -/
theorem claim4_integrate_idempotent : ∀ (s : DB) (sources : List (List SrcRun)),
    (integrate (integrate s sources) sources).status = (integrate s sources).status ∧
    (integrate (integrate s sources) sources).host = (integrate s sources).host ∧
    (integrate (integrate s sources) sources).filesha = (integrate s sources).filesha ∧
    (integrate (integrate s sources) sources).filepath = (integrate s sources).filepath ∧
    (integrate (integrate s sources) sources).run.length = (integrate s sources).run.length ∧
    (integrate (integrate s sources) sources).directory = (integrate s sources).directory ∧
    (integrate (integrate s sources) sources).link = (integrate s sources).link ∧
    (integrate (integrate s sources) sources).file = (integrate s sources).file := by
  intro s sources
  obtain ⟨l, he, hk⟩ := integrate_noInsert (integrate s sources) sources
    (integrate_satAll sources s)
  have hlen : l.length = (integrate s sources).run.length := by
    have hc := congrArg List.length hk
    rw [List.length_map, List.length_map] at hc
    exact hc
  rw [he]
  exact ⟨rfl, rfl, rfl, rfl, hlen, rfl, rfl, rfl⟩

/-- Claim C5 evaluation: on the concrete catalog, `restoreList` with an empty
filter set yields every observation of the run for all three tables, the
directory table honours a prefix filter, but the link and file tables raise
`NameError` on any non-empty filter set (the source reads the undefined name
`subjects`). -/
theorem claim5_restoreList_eval :
    directoryTable_restoreList cdb1 (some 1) [] =
      [⟨"/etc", 0, 0, 493, 5⟩, ⟨"/var/log", 0, 0, 493, 6⟩] ∧
    directoryTable_restoreList cdb1 (some 1) ["/etc"] = [⟨"/etc", 0, 0, 493, 5⟩] ∧
    linkTable_restoreList cdb1 (some 1) [] = Except.ok [⟨"/var/log", "target"⟩] ∧
    fileTable_restoreList cdb1 (some 1) [] =
      Except.ok [⟨"/etc/passwd", 0, 0, 420, 5, "abc123"⟩] ∧
    linkTable_restoreList cdb1 (some 1) ["/etc"] = Except.error PyErr.nameError ∧
    fileTable_restoreList cdb1 (some 1) ["/etc"] = Except.error PyErr.nameError :=
  ⟨by decide, by decide, rfl, rfl, rfl, rfl⟩

/-- Claim C8: in read-only mode, `getId` on a value with no matching row
returns `None`, performs no insert (the table, hence its row count, is
unchanged), and the `None` signal is distinct from every id. -/
theorem claim8_readonly_miss {α : Type} (eq : α → α → Bool) (rows : Tbl α) (v : α)
    (h : ∀ r ∈ rows, eq r.2 v = false) :
    tblGetId eq true rows v = (none, rows) ∧
    (∀ i : Nat, (tblGetId eq true rows v).1 ≠ some i) ∧
    countKey eq (tblGetId eq true rows v).2 v = countKey eq rows v := by
  have hf : tblFind eq rows v = none := by
    unfold tblFind
    rw [List.find?_eq_none.mpr (fun a ha => by simp [h a ha])]
    rfl
  have hm := tblGetId_missRO eq rows v hf
  refine ⟨hm, ?_, by rw [hm]⟩
  intro i
  rw [hm]
  simp

/-- Claim C8 witness at a concrete input. -/
theorem claim8_witness :
    tblGetId strEq true [(1, "a")] "b" = (none, [(1, "a")]) ∧
    (∀ i : Nat, (tblGetId strEq true [(1, "a")] "b").1 ≠ some i) ∧
    countKey strEq (tblGetId strEq true [(1, "a")] "b").2 "b" =
      countKey strEq [(1, "a")] "b" :=
  claim8_readonly_miss strEq [(1, "a")] "b" (by decide)

/-- Claim C9: every call of `Open` (`RunTable.getId`) in write mode ends by
overwriting the status of the run row it returns with the id of the `"Setup"`
status, whatever status the row had before: the assignment happens on every
call, not only on creation. -/
theorem claim9_open_overwrites_status (s : DB) (host : String) (t : Int) (rid : Nat)
    (row : RunRow) (h1 : (runTable_getId false s host t).1 = some rid)
    (h2 : row ∈ (runTable_getId false s host t).2.run) (h3 : row.id = rid) :
    ∃ su, tblFind strEq (runTable_getId false s host t).2.status "Setup" = some su ∧
      row.statusId = some su := by
  obtain ⟨su, hb1, hb2⟩ := tblGetId_post strEq s.status "Setup" (strEq_refl "Setup")
  refine ⟨su, ?_, ?_⟩
  · rw [runTable_getId_eq]
    dsimp only
    exact hb2
  · rw [runTable_getId_eq] at h1 h2
    dsimp only at h1 h2
    obtain ⟨orig, hmem, heq⟩ := List.mem_map.mp h2
    have hoid : orig.id = rid := by
      rw [← (updStatusRow_keys (runRawGetId false s.run (tblGetId strEq false s.host host).1
        t).1 (tblGetId strEq false s.status "Setup").1 orig).1, heq]
      exact h3
    rw [← heq, h1, hb1]
    simp [updStatusRow, rowIdMatches, hoid]

/-- Claim C9 witness: re-opening the existing run of the concrete catalog
(previous status `"Done"`) leaves its row with the `"Setup"` status id. -/
theorem claim9_witness :
    ∃ su, tblFind strEq (runTable_getId false cdb1 "h" 10).2.status "Setup" = some su ∧
      (⟨1, some 1, 10, some 20, some 1⟩ : RunRow).statusId = some su :=
  claim9_open_overwrites_status cdb1 "h" 10 1 ⟨1, some 1, 10, some 20, some 1⟩
    (by decide) (by decide) (by decide)

/-- Claim C10: in write mode, `FindKnownHash` (`FileTable.getExistingRecord`)
is not a pure query: when the host or path string is not yet in its
dictionary, the lookup inserts it there as a side effect, while leaving the
run, file, hash and status tables untouched (so this happens whatever the
lookup returns, also on a NotFound). -/
theorem claim10_lookup_inserts (s : DB) (host path : String) (sz tm : Int)
    (hh : tblFind strEq s.host host = none)
    (hp : tblFind strEq s.filepath path = none) :
    (fileTable_getExistingRecord false s host path sz tm).2.host =
      s.host ++ [(freshId s.host, host)] ∧
    (fileTable_getExistingRecord false s host path sz tm).2.filepath =
      s.filepath ++ [(freshId s.filepath, path)] ∧
    (fileTable_getExistingRecord false s host path sz tm).2.run = s.run ∧
    (fileTable_getExistingRecord false s host path sz tm).2.file = s.file ∧
    (fileTable_getExistingRecord false s host path sz tm).2.filesha = s.filesha ∧
    (fileTable_getExistingRecord false s host path sz tm).2.status = s.status := by
  rw [fileTable_getExistingRecord_eq]
  dsimp only
  rw [tblGetId_missRW strEq s.host host hh, tblGetId_missRW strEq s.filepath path hp]
  exact ⟨rfl, rfl, rfl, rfl, rfl, rfl⟩

/-- Claim C10 witness at a concrete input. -/
theorem claim10_witness :
    (fileTable_getExistingRecord false emptyDB "h" "/p" 1 2).2.host =
      emptyDB.host ++ [(freshId emptyDB.host, "h")] ∧
    (fileTable_getExistingRecord false emptyDB "h" "/p" 1 2).2.filepath =
      emptyDB.filepath ++ [(freshId emptyDB.filepath, "/p")] ∧
    (fileTable_getExistingRecord false emptyDB "h" "/p" 1 2).2.run = emptyDB.run ∧
    (fileTable_getExistingRecord false emptyDB "h" "/p" 1 2).2.file = emptyDB.file ∧
    (fileTable_getExistingRecord false emptyDB "h" "/p" 1 2).2.filesha = emptyDB.filesha ∧
    (fileTable_getExistingRecord false emptyDB "h" "/p" 1 2).2.status = emptyDB.status :=
  claim10_lookup_inserts emptyDB "h" "/p" 1 2 (by decide) (by decide)

/-- Membership in the candidate set of the fast-path lookup is exactly a
filesha/file/run join row passing the WHERE clause. -/
theorem existingCands_mem (s : DB) (hid pid : Option Nat) (sz tm : Int) (t : Int)
    (hsh : String) :
    (t, hsh) ∈ existingCands s hid pid sz tm ↔
      ∃ sh ∈ s.filesha, ∃ f ∈ s.file, ∃ r ∈ s.run,
        sqlEqO r.hostId hid = true ∧ sqlEqO f.2.pathId pid = true ∧
        f.2.filesize = sz ∧ f.2.filetime = tm ∧
        sqlEqO f.2.runId (some r.id) = true ∧ sqlEqO (some sh.1) f.2.shaId = true ∧
        t = r.starttime ∧ hsh = sh.2 := by
  unfold existingCands
  simp only [List.mem_flatMap, List.mem_map, List.mem_filter, Bool.and_eq_true,
    Prod.mk.injEq, beq_iff_eq]
  constructor
  · rintro ⟨sh, hsh1, f, hf1, r, ⟨hr1, ⟨⟨⟨⟨⟨c1, c2⟩, c3⟩, c4⟩, c5⟩, c6⟩⟩, ht, hh⟩
    exact ⟨sh, hsh1, f, hf1, r, hr1, c1, c2, c3, c4, c5, c6, ht.symm, hh.symm⟩
  · rintro ⟨sh, hsh1, f, hf1, r, hr1, c1, c2, c3, c4, c5, c6, ht, hh⟩
    exact ⟨sh, hsh1, f, hf1, r, ⟨hr1, ⟨⟨⟨⟨⟨c1, c2⟩, c3⟩, c4⟩, c5⟩, c6⟩⟩, ht.symm, hh.symm⟩

/-- Claim C3: `FindKnownHash` (`FileTable.getExistingRecord`) returns the hash
of a matching filesha/file/run join row whose run start time is maximal among
the matches for the resolved host and path ids and the exact size and mtime,
and returns `None` exactly when no such join row exists.  The last conjunct
spells out what a match is. -/
theorem claim3_findKnownHash : ∀ (ro : Bool) (s : DB) (host path : String) (sz tm : Int),
    (existingCands s (tblGetId strEq ro s.host host).1 (tblGetId strEq ro s.filepath path).1
        sz tm = [] →
      (fileTable_getExistingRecord ro s host path sz tm).1 = none) ∧
    (∀ hsh, (fileTable_getExistingRecord ro s host path sz tm).1 = some hsh →
      ∃ t, (t, hsh) ∈ existingCands s (tblGetId strEq ro s.host host).1
          (tblGetId strEq ro s.filepath path).1 sz tm ∧
        ∀ x ∈ existingCands s (tblGetId strEq ro s.host host).1
          (tblGetId strEq ro s.filepath path).1 sz tm, x.1 ≤ t) ∧
    (existingCands s (tblGetId strEq ro s.host host).1 (tblGetId strEq ro s.filepath path).1
        sz tm ≠ [] →
      ∃ hsh, (fileTable_getExistingRecord ro s host path sz tm).1 = some hsh) ∧
    (∀ t hsh, (t, hsh) ∈ existingCands s (tblGetId strEq ro s.host host).1
        (tblGetId strEq ro s.filepath path).1 sz tm ↔
      ∃ sh ∈ s.filesha, ∃ f ∈ s.file, ∃ r ∈ s.run,
        sqlEqO r.hostId (tblGetId strEq ro s.host host).1 = true ∧
        sqlEqO f.2.pathId (tblGetId strEq ro s.filepath path).1 = true ∧
        f.2.filesize = sz ∧ f.2.filetime = tm ∧
        sqlEqO f.2.runId (some r.id) = true ∧ sqlEqO (some sh.1) f.2.shaId = true ∧
        t = r.starttime ∧ hsh = sh.2) := by
  intro ro s host path sz tm
  have hq : (fileTable_getExistingRecord ro s host path sz tm).1 =
      (bestRow (existingCands s (tblGetId strEq ro s.host host).1
        (tblGetId strEq ro s.filepath path).1 sz tm)).map (fun x => x.2) := rfl
  refine ⟨?_, ?_, ?_, fun t hsh => existingCands_mem s _ _ sz tm t hsh⟩
  · intro hcs
    rw [hq, hcs]
    rfl
  · intro hsh hsome
    rw [hq] at hsome
    rcases bestRow_spec (existingCands s (tblGetId strEq ro s.host host).1
        (tblGetId strEq ro s.filepath path).1 sz tm) with ⟨_, hnone⟩ | ⟨t, h, hb, hm, hbound⟩
    · rw [hnone] at hsome
      simp at hsome
    · rw [hb] at hsome
      have hh2 : some h = some hsh := hsome
      have hh3 : h = hsh := by injection hh2
      subst hh3
      exact ⟨t, hm, hbound⟩
  · intro hne
    rcases bestRow_spec (existingCands s (tblGetId strEq ro s.host host).1
        (tblGetId strEq ro s.filepath path).1 sz tm) with ⟨hnil, _⟩ | ⟨t, h, hb, _, _⟩
    · exact absurd hnil hne
    · refine ⟨h, ?_⟩
      rw [hq, hb]
      rfl

/-- The optional host filter of `listBackups` as a proposition. -/
theorem hostFilter_iff (host : Option String) (hv : String) :
    (match host with | some hn => hv == hn | none => true) = true ↔
      ∀ hn, host = some hn → hv = hn := by
  cases host with
  | none =>
    constructor
    · intro _ hn he
      simp at he
    · intro _
      rfl
  | some hn =>
    constructor
    · intro hb hn2 he
      have h2 : hn = hn2 := by injection he
      subst h2
      exact eq_of_beq hb
    · intro hall
      exact beq_iff_eq.mpr (hall hn rfl)

/-- The endtime comparison of `listBackups` as a proposition: a NULL endtime
never passes. -/
theorem endtimeFilter_iff (et : Option Int) (nb : Int) :
    (match et with | some e => decide (nb ≤ e) | none => false) = true ↔
      ∃ e, et = some e ∧ nb ≤ e := by
  cases et with
  | none => simp
  | some e => simp

/-- Claim C7: `ListRuns` (`RunTable.listBackups`) yields, ordered by start time
ascending, exactly the runs joined to their host and status strings whose
endtime is set and at least `notBefore` (default `0`) and whose start time is
at most `notAfter` (default the current time `now`), restricted to the given
host when one is passed. -/
theorem claim7_listBackups : ∀ (s : DB) (host : Option String)
    (notBefore notAfter : Option Int) (now : Int),
    List.Pairwise (fun a b : BackupRec => a.starttime ≤ b.starttime)
      (runTable_listBackups s host notBefore notAfter now) ∧
    (∀ rec : BackupRec, rec ∈ runTable_listBackups s host notBefore notAfter now ↔
      ∃ r ∈ s.run, ∃ h ∈ s.host, ∃ st ∈ s.status,
        sqlEqO (some h.1) r.hostId = true ∧ sqlEqO (some st.1) r.statusId = true ∧
        (∀ hn, host = some hn → h.2 = hn) ∧
        (∃ e, r.endtime = some e ∧ notBefore.getD 0 ≤ e) ∧
        r.starttime ≤ notAfter.getD now ∧
        rec = ⟨r.id, h.2, r.starttime, r.endtime, st.2⟩) := by
  intro s host notBefore notAfter now
  have hdef : runTable_listBackups s host notBefore notAfter now =
      sortKey (fun r => r.starttime)
        (s.run.flatMap (fun r =>
          s.host.flatMap (fun h =>
            (s.status.filter (fun st =>
                (match host with | some hn => h.2 == hn | none => true) &&
                (match r.endtime with
                 | some e => decide (notBefore.getD 0 ≤ e)
                 | none => false) &&
                decide (r.starttime ≤ notAfter.getD now) &&
                sqlEqO (some h.1) r.hostId && sqlEqO (some st.1) r.statusId)).map
              (fun st => BackupRec.mk r.id h.2 r.starttime r.endtime st.2)))) := rfl
  rw [hdef]
  constructor
  · exact sortKey_pairwise _ _
  · intro rec
    rw [sortKey_mem]
    simp only [List.mem_flatMap, List.mem_map, List.mem_filter, Bool.and_eq_true]
    constructor
    · rintro ⟨r, hr, h, hh, st, ⟨hst, ⟨⟨⟨⟨c1, c2⟩, c3⟩, c4⟩, c5⟩⟩, heq⟩
      exact ⟨r, hr, h, hh, st, hst, c4, c5, (hostFilter_iff host h.2).mp c1,
        (endtimeFilter_iff r.endtime _).mp c2, by simpa using c3, heq.symm⟩
    · rintro ⟨r, hr, h, hh, st, hst, c4, c5, c1, c2, c3, heq⟩
      exact ⟨r, hr, h, hh, st, ⟨hst, ⟨⟨⟨⟨(hostFilter_iff host h.2).mpr c1,
        (endtimeFilter_iff r.endtime _).mpr c2⟩, by simpa using c3⟩, c4⟩, c5⟩⟩, heq.symm⟩

/-- Membership in the directory search results is exactly a matching join row. -/
theorem searchDirRows_mem (s : DB) (pat : String) (r : SearchRec) :
    r ∈ searchDirRows s pat ↔
      ∃ h ∈ s.host, ∃ f ∈ s.directory, ∃ p ∈ s.filepath, ∃ r0 ∈ s.run,
        likeStr pat p.2 = true ∧ sqlEqO (some h.1) r0.hostId = true ∧
        sqlEqO (some r0.id) f.2.runId = true ∧ sqlEqO (some p.1) f.2.pathId = true ∧
        r = ⟨"DIR", h.2, f.2.filetime, p.2⟩ := by
  unfold searchDirRows
  rw [sortKey_mem, List.mem_dedup]
  simp only [List.mem_flatMap, List.mem_map, List.mem_filter, Bool.and_eq_true]
  constructor
  · rintro ⟨h, hh, f, hf, p, hp, r0, ⟨hr0, ⟨⟨⟨c1, c2⟩, c3⟩, c4⟩⟩, heq⟩
    exact ⟨h, hh, f, hf, p, hp, r0, hr0, c1, c2, c3, c4, heq.symm⟩
  · rintro ⟨h, hh, f, hf, p, hp, r0, hr0, c1, c2, c3, c4, heq⟩
    exact ⟨h, hh, f, hf, p, hp, r0, ⟨hr0, ⟨⟨⟨c1, c2⟩, c3⟩, c4⟩⟩, heq.symm⟩

/-- Membership in the link search results is exactly a matching join row; the
time column is the literal `0`. -/
theorem searchLinkRows_mem (s : DB) (pat : String) (r : SearchRec) :
    r ∈ searchLinkRows s pat ↔
      ∃ h ∈ s.host, ∃ f ∈ s.link, ∃ p ∈ s.filepath, ∃ r0 ∈ s.run,
        likeStr pat p.2 = true ∧ sqlEqO (some h.1) r0.hostId = true ∧
        sqlEqO (some r0.id) f.2.runId = true ∧ sqlEqO (some p.1) f.2.pathId = true ∧
        r = ⟨"LINK", h.2, 0, p.2⟩ := by
  unfold searchLinkRows
  rw [List.mem_dedup]
  simp only [List.mem_flatMap, List.mem_map, List.mem_filter, Bool.and_eq_true]
  constructor
  · rintro ⟨h, hh, f, hf, p, hp, r0, ⟨hr0, ⟨⟨⟨c1, c2⟩, c3⟩, c4⟩⟩, heq⟩
    exact ⟨h, hh, f, hf, p, hp, r0, hr0, c1, c2, c3, c4, heq.symm⟩
  · rintro ⟨h, hh, f, hf, p, hp, r0, hr0, c1, c2, c3, c4, heq⟩
    exact ⟨h, hh, f, hf, p, hp, r0, ⟨hr0, ⟨⟨⟨c1, c2⟩, c3⟩, c4⟩⟩, heq.symm⟩

/-- Membership in the file search results is exactly a matching join row. -/
theorem searchFileRows_mem (s : DB) (pat : String) (r : SearchRec) :
    r ∈ searchFileRows s pat ↔
      ∃ h ∈ s.host, ∃ f ∈ s.file, ∃ p ∈ s.filepath, ∃ r0 ∈ s.run,
        likeStr pat p.2 = true ∧ sqlEqO (some h.1) r0.hostId = true ∧
        sqlEqO (some r0.id) f.2.runId = true ∧ sqlEqO (some p.1) f.2.pathId = true ∧
        r = ⟨"FILE", h.2, f.2.filetime, p.2⟩ := by
  unfold searchFileRows
  rw [sortKey_mem, List.mem_dedup]
  simp only [List.mem_flatMap, List.mem_map, List.mem_filter, Bool.and_eq_true]
  constructor
  · rintro ⟨h, hh, f, hf, p, hp, r0, ⟨hr0, ⟨⟨⟨c1, c2⟩, c3⟩, c4⟩⟩, heq⟩
    exact ⟨h, hh, f, hf, p, hp, r0, hr0, c1, c2, c3, c4, heq.symm⟩
  · rintro ⟨h, hh, f, hf, p, hp, r0, hr0, c1, c2, c3, c4, heq⟩
    exact ⟨h, hh, f, hf, p, hp, r0, ⟨hr0, ⟨⟨⟨c1, c2⟩, c3⟩, c4⟩⟩, heq.symm⟩

/-- Search over a single term is the concatenation of the three per-kind
query results for the `%term%` pattern. -/
theorem search_single (s : DB) (term : String) :
    filepathTable_search s [term] =
      searchDirRows s ("%" ++ term ++ "%") ++ searchLinkRows s ("%" ++ term ++ "%") ++
        searchFileRows s ("%" ++ term ++ "%") := by
  simp [filepathTable_search]

/-- Claim C6 counterexample: the claim calls the match case-sensitive, but on
the concrete catalog the term `"PASSWD"` matches the file observation at
`"/etc/passwd"` (SQLite LIKE folds ASCII case), although `"PASSWD"` is not a
case-sensitive substring of `"/etc/passwd"`. -/
theorem claim6_counterexample :
    filepathTable_search cdb1 ["PASSWD"] = [⟨"FILE", "h", 5, "/etc/passwd"⟩] ∧
    csContains "PASSWD" "/etc/passwd" = false :=
  ⟨by decide, by decide⟩

/-- Claim C6 (amended): `Search` performs a case-insensitive (ASCII, SQLite
LIKE) substring match of each term independently against directory, link and
file observation paths, emits one tagged result per distinct match, orders
directory and file results by timestamp ascending within each term and kind,
reports link results with the sentinel timestamp `0`; and
`Search(["passwd"])` on the concrete catalog with a file observation at
`/etc/passwd` yields exactly one result, of kind FILE, with that path. -/
theorem claim6_search_ci :
    (∀ (s : DB) (term : String) (r : SearchRec), wildcardFree term = true →
      r ∈ filepathTable_search s [term] →
      ciContains term r.filepath = true ∧
      (r.kind = "DIR" ∨ r.kind = "LINK" ∨ r.kind = "FILE") ∧
      (r.kind = "LINK" → r.filetime = 0)) ∧
    (∀ (s : DB) (pat : String),
      List.Pairwise (fun a b : SearchRec => a.filetime ≤ b.filetime) (searchDirRows s pat) ∧
      List.Pairwise (fun a b : SearchRec => a.filetime ≤ b.filetime) (searchFileRows s pat)) ∧
    (∀ (s : DB) (term : String) (h : Nat × String) (f : Nat × FileKey) (p : Nat × String)
        (r0 : RunRow), wildcardFree term = true → h ∈ s.host → f ∈ s.file →
      p ∈ s.filepath → r0 ∈ s.run → ciContains term p.2 = true →
      sqlEqO (some h.1) r0.hostId = true → sqlEqO (some r0.id) f.2.runId = true →
      sqlEqO (some p.1) f.2.pathId = true →
      SearchRec.mk "FILE" h.2 f.2.filetime p.2 ∈ filepathTable_search s [term]) ∧
    filepathTable_search cdb1 ["passwd"] = [⟨"FILE", "h", 5, "/etc/passwd"⟩] := by
  refine ⟨?_, ?_, ?_, by decide⟩
  · intro s term r hwf hmem
    rw [search_single] at hmem
    rcases List.mem_append.mp hmem with hm2 | hmf
    · rcases List.mem_append.mp hm2 with hmd | hml
      · obtain ⟨h, hh, f, hf, p, hp, r0, hr0, c1, c2, c3, c4, heq⟩ :=
          (searchDirRows_mem s _ r).mp hmd
        subst heq
        refine ⟨?_, Or.inl rfl, ?_⟩
        · rw [← likeStr_ci term p.2 hwf]
          exact c1
        · intro habs
          simp at habs
      · obtain ⟨h, hh, f, hf, p, hp, r0, hr0, c1, c2, c3, c4, heq⟩ :=
          (searchLinkRows_mem s _ r).mp hml
        subst heq
        refine ⟨?_, Or.inr (Or.inl rfl), fun _ => rfl⟩
        rw [← likeStr_ci term p.2 hwf]
        exact c1
    · obtain ⟨h, hh, f, hf, p, hp, r0, hr0, c1, c2, c3, c4, heq⟩ :=
        (searchFileRows_mem s _ r).mp hmf
      subst heq
      refine ⟨?_, Or.inr (Or.inr rfl), ?_⟩
      · rw [← likeStr_ci term p.2 hwf]
        exact c1
      · intro habs
        simp at habs
  · intro s pat
    constructor
    · unfold searchDirRows
      exact sortKey_pairwise _ _
    · unfold searchFileRows
      exact sortKey_pairwise _ _
  · intro s term h f p r0 hwf hh hf hp hr0 hci ch cr cp
    have hlike : likeStr ("%" ++ term ++ "%") p.2 = true := by
      rw [likeStr_ci term p.2 hwf]
      exact hci
    have hfile : SearchRec.mk "FILE" h.2 f.2.filetime p.2 ∈
        searchFileRows s ("%" ++ term ++ "%") :=
      (searchFileRows_mem s _ _).mpr ⟨h, hh, f, hf, p, hp, r0, hr0, hlike, ch, cr, cp, rfl⟩
    rw [search_single]
    exact List.mem_append.mpr (Or.inr hfile)
